import Mathlib

/-!
# SeqSync alignment engine: a shallow embedding

This file embeds the alignment engine of the SeqSync repository
(`src/utils/alignmentLogic.js`) in Lean 4 and proves properties of it.

Modelling conventions:
* JS strings become `List Char`; a nullable string argument becomes
  `Option (List Char)` (`none` models `null`/`undefined`).
* JS numbers are integers throughout the engine (the scoring parameters are
  integers and every matrix entry is a sum of them), so matrix values are
  modelled as `Int`.  The source compares scores with
  `Math.abs(x - y) < 1e-10`; on integers this is exactly `x = y`, and
  `x > 1e-10` is exactly `x > 0`, which is how those tests are rendered here.
* The DP matrix is modelled as a total function `Nat → Nat → Int` (the JS
  array, read at in-range indices only); the nested fill loops become nested
  left folds over `List.range`, updating one cell per step exactly as the
  loop body does.
* A thrown `Error` becomes `Except.error` carrying the source's message.
* The `while` tracebacks become fuel-indexed structural recursions; the fuel
  is `i + j`, which bounds the number of remaining iterations because every
  iteration decreases `i + j` by at least one.
-/

set_option maxRecDepth 100000

instance {ε α : Type} [DecidableEq ε] [DecidableEq α] : DecidableEq (Except ε α) :=
  fun x y =>
    match x, y with
    | .error a, .error b =>
      if h : a = b then isTrue (by rw [h]) else isFalse (by simp [h])
    | .ok a, .ok b =>
      if h : a = b then isTrue (by rw [h]) else isFalse (by simp [h])
    | .error _, .ok _ => isFalse (by simp)
    | .ok _, .error _ => isFalse (by simp)

/-- `DEFAULT_SCORES`' shape: the `{match, mismatch, gap}` scoring object. -/
structure Scores where
  «match» : Int
  mismatch : Int
  gap : Int
deriving Repr, DecidableEq

/-- `DEFAULT_SCORES = { match: 2, mismatch: -1, gap: -2 }`. -/
def DEFAULT_SCORES : Scores := { «match» := 2, mismatch := -1, gap := -2 }

/-- `char1 === char2 ? scores.match : scores.mismatch` (the `matchScore`
local of both aligners). -/
def matchScoreOf (sc : Scores) (a b : Char) : Int :=
  if a = b then sc.«match» else sc.mismatch

/-- The guard `!seq1 || seq1.length === 0` of both aligners: a sequence
argument is missing when it is `null`/`undefined` (here `none`) or empty. -/
def isMissing : Option (List Char) → Bool
  | none => true
  | some s => s.isEmpty

/-- Matrix state after the two Needleman–Wunsch initialisation loops:
`matrix[i][0] = i * gap`, `matrix[0][j] = j * gap`, interior cells `0`. -/
def nwInit (sc : Scores) : Nat → Nat → Int := fun i j =>
  if j = 0 then (i : Int) * sc.gap
  else if i = 0 then (j : Int) * sc.gap
  else 0

/-- One iteration of the Needleman–Wunsch fill loop body at cell `(i, j)`:
`matrix[i][j] = Math.max(diagonal, up, left)`. -/
def nwCellUpdate (sc : Scores) (s1 s2 : List Char) (M : Nat → Nat → Int)
    (i j : Nat) : Nat → Nat → Int := fun i' j' =>
  if i' = i ∧ j' = j then
    max (max (M (i - 1) (j - 1) + matchScoreOf sc (s1.getD (i - 1) ' ') (s2.getD (j - 1) ' '))
             (M (i - 1) j + sc.gap))
        (M i (j - 1) + sc.gap)
  else M i' j'

/-- The inner Needleman–Wunsch fill loop (`for j = 1..k`) on row `r`. -/
def nwRowFold (sc : Scores) (s1 s2 : List Char) (r : Nat)
    (M : Nat → Nat → Int) (k : Nat) : Nat → Nat → Int :=
  (List.range k).foldl (fun Mc j => nwCellUpdate sc s1 s2 Mc r (j + 1)) M

/-- The outer Needleman–Wunsch fill loop (`for i = 1..t`), each row running
the inner loop over columns `1..n`. -/
def nwRowsFold (sc : Scores) (s1 s2 : List Char) (n : Nat)
    (M : Nat → Nat → Int) (t : Nat) : Nat → Nat → Int :=
  (List.range t).foldl (fun Mc i => nwRowFold sc s1 s2 (i + 1) Mc n) M

/-- The filled Needleman–Wunsch score matrix for `s1`, `s2`. -/
def nwMatrix (sc : Scores) (s1 s2 : List Char) : Nat → Nat → Int :=
  nwRowsFold sc s1 s2 s2.length (nwInit sc) s1.length

/-- Reference form of the Needleman–Wunsch recurrence (the closed recursive
description of the matrix the fill loops compute; used to reason about
`nwMatrix`). -/
def nwG (sc : Scores) (s1 s2 : List Char) : Nat → Nat → Int
  | i, 0 => (i : Int) * sc.gap
  | 0, j + 1 => ((j : Int) + 1) * sc.gap
  | i + 1, j + 1 =>
    max (max (nwG sc s1 s2 i j + matchScoreOf sc (s1.getD i ' ') (s2.getD j ' '))
             (nwG sc s1 s2 i (j + 1) + sc.gap))
        (nwG sc s1 s2 (i + 1) j + sc.gap)

example : nwMatrix DEFAULT_SCORES ['A', 'C', 'G'] ['T', 'G'] 0 1 = -2 := by decide
example : nwMatrix DEFAULT_SCORES ['A', 'C', 'G'] ['T', 'G'] 3 0 = -6 := by decide
example : nwMatrix DEFAULT_SCORES ['A', 'C', 'G', 'T'] ['A', 'C', 'G', 'T'] 4 4 = 8 := by
  decide

/-- Accumulated result of a Needleman–Wunsch traceback, in forward
(origin → end) order, i.e. after the source's final `path.reverse()` and
with the string prepends rendered as appends on the way back out of the
recursion.  `fallback` counts executions of the defensive final `else`
branch (the forced diagonal step), which the source reaches only if no
candidate source value matches the current cell. -/
structure NWTrace where
  path : List (Nat × Nat)
  a1 : List Char
  a2 : List Char
  fallback : Nat
deriving Repr, DecidableEq

/-- The Needleman–Wunsch traceback loop
(`while (i > 0 || j > 0) { ... }` followed by `path.push({row:0, col:0})`),
as a fuel-indexed recursion; called with `fuel ≥ i + j` the fuel never runs
out because each iteration decreases `i + j`. -/
def nwTbA (sc : Scores) (s1 s2 : List Char) (M : Nat → Nat → Int) :
    Nat → Nat → Nat → NWTrace
  | 0, _, _ => ⟨[(0, 0)], [], [], 0⟩
  | fuel + 1, i, j =>
    if i = 0 ∧ j = 0 then ⟨[(0, 0)], [], [], 0⟩
    else if i = 0 then
      let r := nwTbA sc s1 s2 M fuel 0 (j - 1)
      ⟨r.path ++ [(i, j)], r.a1 ++ ['-'], r.a2 ++ [s2.getD (j - 1) ' '], r.fallback⟩
    else if j = 0 then
      let r := nwTbA sc s1 s2 M fuel (i - 1) 0
      ⟨r.path ++ [(i, j)], r.a1 ++ [s1.getD (i - 1) ' '], r.a2 ++ ['-'], r.fallback⟩
    else
      let cur := M i j
      let c1 := s1.getD (i - 1) ' '
      let c2 := s2.getD (j - 1) ' '
      let d := M (i - 1) (j - 1) + matchScoreOf sc c1 c2
      let u := M (i - 1) j + sc.gap
      let l := M i (j - 1) + sc.gap
      if cur = d then
        let r := nwTbA sc s1 s2 M fuel (i - 1) (j - 1)
        ⟨r.path ++ [(i, j)], r.a1 ++ [c1], r.a2 ++ [c2], r.fallback⟩
      else if cur = u then
        let r := nwTbA sc s1 s2 M fuel (i - 1) j
        ⟨r.path ++ [(i, j)], r.a1 ++ [c1], r.a2 ++ ['-'], r.fallback⟩
      else if cur = l then
        let r := nwTbA sc s1 s2 M fuel i (j - 1)
        ⟨r.path ++ [(i, j)], r.a1 ++ ['-'], r.a2 ++ [c2], r.fallback⟩
      else
        let r := nwTbA sc s1 s2 M fuel (i - 1) (j - 1)
        ⟨r.path ++ [(i, j)], r.a1 ++ [c1], r.a2 ++ [c2], r.fallback + 1⟩

/-- The traceback run by `needlemanWunsch`: from `(m, n)` over the filled
matrix. -/
def nwTraceback (sc : Scores) (s1 s2 : List Char) : NWTrace :=
  nwTbA sc s1 s2 (nwMatrix sc s1 s2) (s1.length + s2.length) s1.length s2.length

/-- The `(m+1) × (n+1)` nested-array view of a matrix function, as built by
`Array(m + 1).fill(null).map(() => Array(n + 1).fill(0))` and then filled. -/
def toMatrixList (M : Nat → Nat → Int) (m n : Nat) : List (List Int) :=
  (List.range (m + 1)).map fun i => (List.range (n + 1)).map fun j => M i j

/-- The object returned by `needlemanWunsch`. -/
structure NWResult where
  matrix : List (List Int)
  path : List (Nat × Nat)
  alignedSeq1 : List Char
  alignedSeq2 : List Char
  score : Int
  algorithm : String
deriving Repr, DecidableEq

/-- The success payload of `needlemanWunsch` on (non-missing) sequences. -/
def nwRun (sc : Scores) (s1 s2 : List Char) : NWResult :=
  { matrix := toMatrixList (nwMatrix sc s1 s2) s1.length s2.length
    path := (nwTraceback sc s1 s2).path
    alignedSeq1 := (nwTraceback sc s1 s2).a1
    alignedSeq2 := (nwTraceback sc s1 s2).a2
    score := nwMatrix sc s1 s2 s1.length s2.length
    algorithm := "Needleman-Wunsch" }

/-- `needlemanWunsch(seq1, seq2, scores)`: throws
`'Both sequences must be non-empty'` when a sequence is missing, otherwise
fills the matrix, runs the traceback and returns the result object. -/
def needlemanWunsch (s1? s2? : Option (List Char)) (sc : Scores) :
    Except String NWResult :=
  if isMissing s1? || isMissing s2? then
    Except.error "Both sequences must be non-empty"
  else
    Except.ok (nwRun sc (s1?.getD []) (s2?.getD []))

example :
    (needlemanWunsch (some ['A', 'C', 'G', 'T']) (some ['A', 'C', 'G', 'T'])
        DEFAULT_SCORES).map (fun r => (r.score, r.alignedSeq1, r.path.length)) =
      Except.ok (8, ['A', 'C', 'G', 'T'], 5) := by decide

example :
    (needlemanWunsch (some ['A']) (some ['T', 'T', 'T', 'T'])
        DEFAULT_SCORES).map (fun r => (r.score, r.alignedSeq1, r.alignedSeq2)) =
      Except.ok (-7, ['-', '-', '-', 'A'], ['T', 'T', 'T', 'T']) := by decide

/-- Smith–Waterman fill state: the matrix plus the running
`maxScore` / `maxPos` trackers. -/
structure SWFillState where
  M : Nat → Nat → Int
  maxScore : Int
  maxPos : Nat × Nat

/-- The value `Math.max(0, diagonal, up, left)` the Smith–Waterman fill
loop writes into `matrix[i][j]`. -/
def swCellVal (sc : Scores) (s1 s2 : List Char) (M : Nat → Nat → Int)
    (i j : Nat) : Int :=
  max (max (max 0 (M (i - 1) (j - 1) +
                    matchScoreOf sc (s1.getD (i - 1) ' ') (s2.getD (j - 1) ' ')))
           (M (i - 1) j + sc.gap))
      (M i (j - 1) + sc.gap)

/-- One iteration of the Smith–Waterman fill loop body at `(i, j)`:
`matrix[i][j] = Math.max(0, diagonal, up, left)`, then
`if (matrix[i][j] > maxScore) { maxScore = matrix[i][j]; maxPos = {i, j} }`
(strict comparison: first occurrence of the maximum wins). -/
def swCellStep (sc : Scores) (s1 s2 : List Char) (st : SWFillState)
    (i j : Nat) : SWFillState :=
  let v := swCellVal sc s1 s2 st.M i j
  let M' : Nat → Nat → Int := fun i' j' => if i' = i ∧ j' = j then v else st.M i' j'
  if v > st.maxScore then ⟨M', v, (i, j)⟩ else ⟨M', st.maxScore, st.maxPos⟩

/-- Initial Smith–Waterman state: all-zero matrix (edges stay `0`),
`maxScore = 0`, `maxPos = {row: 0, col: 0}`. -/
def swInitState : SWFillState := ⟨fun _ _ => 0, 0, (0, 0)⟩

/-- The inner Smith–Waterman fill loop (`for j = 1..k`) on row `r`. -/
def swRowFold (sc : Scores) (s1 s2 : List Char) (r : Nat)
    (st : SWFillState) (k : Nat) : SWFillState :=
  (List.range k).foldl (fun s j => swCellStep sc s1 s2 s r (j + 1)) st

/-- The outer Smith–Waterman fill loop (`for i = 1..t`). -/
def swRowsFold (sc : Scores) (s1 s2 : List Char) (n : Nat)
    (st : SWFillState) (t : Nat) : SWFillState :=
  (List.range t).foldl (fun s i => swRowFold sc s1 s2 (i + 1) s n) st

/-- The complete Smith–Waterman fill pass for `s1`, `s2`. -/
def swFillSt (sc : Scores) (s1 s2 : List Char) : SWFillState :=
  swRowsFold sc s1 s2 s2.length swInitState s1.length

/-- The filled Smith–Waterman matrix. -/
def swMatrix (sc : Scores) (s1 s2 : List Char) : Nat → Nat → Int :=
  (swFillSt sc s1 s2).M

/-- Reference form of the Smith–Waterman recurrence with zero floor (edges
are `0`); used to reason about `swMatrix`. -/
def swG (sc : Scores) (s1 s2 : List Char) : Nat → Nat → Int
  | _, 0 => 0
  | 0, _ + 1 => 0
  | i + 1, j + 1 =>
    max (max (max 0 (swG sc s1 s2 i j + matchScoreOf sc (s1.getD i ' ') (s2.getD j ' ')))
             (swG sc s1 s2 i (j + 1) + sc.gap))
        (swG sc s1 s2 (i + 1) j + sc.gap)

/-- Accumulated result of a Smith–Waterman traceback in forward order.
`stop` is the `(i, j)` at loop exit (the source's `startPos` and final
`path.push`); `broke` records whether the defensive `break` branch ran. -/
structure SWTrace where
  path : List (Nat × Nat)
  a1 : List Char
  a2 : List Char
  stop : Nat × Nat
  broke : Bool
deriving Repr, DecidableEq

/-- The Smith–Waterman traceback loop
(`while (i > 0 && j > 0 && matrix[i][j] > epsilon)` with a trailing
`path.push({row: i, col: j})`), fuel-indexed; on integer scores
`matrix[i][j] > epsilon` is `matrix[i][j] > 0`.  In the `break` case the
current cell was already pushed at the top of the iteration and is pushed
again after the loop. -/
def swTbA (sc : Scores) (s1 s2 : List Char) (M : Nat → Nat → Int) :
    Nat → Nat → Nat → SWTrace
  | 0, i, j => ⟨[(i, j)], [], [], (i, j), false⟩
  | fuel + 1, i, j =>
    if i = 0 ∨ j = 0 ∨ ¬M i j > 0 then ⟨[(i, j)], [], [], (i, j), false⟩
    else
      let cur := M i j
      let c1 := s1.getD (i - 1) ' '
      let c2 := s2.getD (j - 1) ' '
      let d := M (i - 1) (j - 1) + matchScoreOf sc c1 c2
      let u := M (i - 1) j + sc.gap
      let l := M i (j - 1) + sc.gap
      if cur = d then
        let r := swTbA sc s1 s2 M fuel (i - 1) (j - 1)
        ⟨r.path ++ [(i, j)], r.a1 ++ [c1], r.a2 ++ [c2], r.stop, r.broke⟩
      else if cur = u then
        let r := swTbA sc s1 s2 M fuel (i - 1) j
        ⟨r.path ++ [(i, j)], r.a1 ++ [c1], r.a2 ++ ['-'], r.stop, r.broke⟩
      else if cur = l then
        let r := swTbA sc s1 s2 M fuel i (j - 1)
        ⟨r.path ++ [(i, j)], r.a1 ++ ['-'], r.a2 ++ [c2], r.stop, r.broke⟩
      else
        ⟨[(i, j), (i, j)], [], [], (i, j), true⟩

/-- The traceback run by `smithWaterman`: from the recorded `maxPos` over
the filled matrix. -/
def swTraceback (sc : Scores) (s1 s2 : List Char) : SWTrace :=
  swTbA sc s1 s2 (swMatrix sc s1 s2) (s1.length + s2.length)
    (swFillSt sc s1 s2).maxPos.1 (swFillSt sc s1 s2).maxPos.2

/-- The object returned by `smithWaterman`. -/
structure SWResult where
  matrix : List (List Int)
  path : List (Nat × Nat)
  alignedSeq1 : List Char
  alignedSeq2 : List Char
  score : Int
  startPos : Nat × Nat
  endPos : Nat × Nat
  algorithm : String
deriving Repr, DecidableEq

/-- The success payload of `smithWaterman` on (non-missing) sequences. -/
def swRun (sc : Scores) (s1 s2 : List Char) : SWResult :=
  { matrix := toMatrixList (swMatrix sc s1 s2) s1.length s2.length
    path := (swTraceback sc s1 s2).path
    alignedSeq1 := (swTraceback sc s1 s2).a1
    alignedSeq2 := (swTraceback sc s1 s2).a2
    score := (swFillSt sc s1 s2).maxScore
    startPos := (swTraceback sc s1 s2).stop
    endPos := (swFillSt sc s1 s2).maxPos
    algorithm := "Smith-Waterman" }

/-- `smithWaterman(seq1, seq2, scores)`: same missing-input guard as the
global aligner, then fill (with max tracking) and traceback. -/
def smithWaterman (s1? s2? : Option (List Char)) (sc : Scores) :
    Except String SWResult :=
  if isMissing s1? || isMissing s2? then
    Except.error "Both sequences must be non-empty"
  else
    Except.ok (swRun sc (s1?.getD []) (s2?.getD []))

example :
    (swRun DEFAULT_SCORES ['A', 'A', 'A', 'A'] ['T', 'T', 'T', 'T']).score = 0 ∧
    (swRun DEFAULT_SCORES ['A', 'A', 'A', 'A'] ['T', 'T', 'T', 'T']).alignedSeq1 = [] ∧
    (swRun DEFAULT_SCORES ['A', 'A', 'A', 'A'] ['T', 'T', 'T', 'T']).path = [(0, 0)] := by
  decide

example :
    (swRun DEFAULT_SCORES ['T', 'T', 'T', 'A', 'T', 'T', 'T'] ['A']).score = 2 ∧
    (swRun DEFAULT_SCORES ['T', 'T', 'T', 'A', 'T', 'T', 'T'] ['A']).alignedSeq1 = ['A'] ∧
    (swRun DEFAULT_SCORES ['T', 'T', 'T', 'A', 'T', 'T', 'T'] ['A']).alignedSeq2 = ['A'] := by
  decide

/-- One position of the `formatAlignment` indicator line:
equality is tested first, then the gap test, then mismatch. -/
def indicator (a b : Char) : Char :=
  if a = b then '|'
  else if a = '-' ∨ b = '-' then ' '
  else ':'

/-- The `matchLine` accumulated by `formatAlignment`'s loop (the loop runs
over `i < seq1.length` indexing both strings; with the equal-length guard
already passed this is a positionwise zip). -/
def matchLineOf (s1 s2 : List Char) : List Char :=
  List.zipWith indicator s1 s2

/-- `formatAlignment(seq1, seq2)`: throws on a length mismatch, otherwise
returns the three-line block `` `${seq1}\n${matchLine}\n${seq2}` ``. -/
def formatAlignment (s1 s2 : List Char) : Except String (List Char) :=
  if s1.length ≠ s2.length then
    Except.error "Aligned sequences must have equal length"
  else
    Except.ok (s1 ++ '\n' :: (matchLineOf s1 s2 ++ '\n' :: s2))

/-- The object returned by `calculateAlignmentStats`. -/
structure AlignStats where
  «matches» : Nat
  mismatches : Nat
  gaps : Nat
  alignmentLength : Nat
  identity : String
  similarity : String
deriving Repr, DecidableEq

/-- `((num / den) * 100).toFixed(2)` for the natural counts the statistics
use.  Modelled from the JS number semantics on this integer data: when
`den = 0` the division yields `NaN` and `NaN.toFixed(2)` is the string
`"NaN"`; otherwise the exact rational is formatted with two decimal digits,
rounding half away from zero (the values are non-negative, so this is
round-half-up on `num * 10000 / den`). -/
def percentFixed2 (num den : Nat) : String :=
  if den = 0 then "NaN"
  else
    let scaled := (num * 10000 * 2 + den) / (2 * den)
    let ip := scaled / 100
    let fp := scaled % 100
    toString ip ++ "." ++ (if fp < 10 then "0" ++ toString fp else toString fp)

/-- The triple of counters accumulated by `calculateAlignmentStats`' loop:
gap first (`seq1[i] === '-' || seq2[i] === '-'`), then match, then
mismatch; one counter is incremented per position. -/
def statCounts (s1 s2 : List Char) : Nat × Nat × Nat :=
  (s1.zip s2).foldl
    (fun acc p =>
      if p.1 = '-' ∨ p.2 = '-' then (acc.1, acc.2.1, acc.2.2 + 1)
      else if p.1 = p.2 then (acc.1 + 1, acc.2.1, acc.2.2)
      else (acc.1, acc.2.1 + 1, acc.2.2))
    (0, 0, 0)

/-- `calculateAlignmentStats(seq1, seq2)`: throws on a length mismatch,
otherwise counts matches / mismatches / gaps and formats
`identity = matches/length` and `similarity = (matches+mismatches)/length`
as percentage strings. -/
def calculateAlignmentStats (s1 s2 : List Char) : Except String AlignStats :=
  if s1.length ≠ s2.length then
    Except.error "Aligned sequences must have equal length"
  else
    let c := statCounts s1 s2
    Except.ok
      { «matches» := c.1
        mismatches := c.2.1
        gaps := c.2.2
        alignmentLength := s1.length
        identity := percentFixed2 c.1 s1.length ++ "%"
        similarity := percentFixed2 (c.1 + c.2.1) s1.length ++ "%" }

example :
    calculateAlignmentStats ['A', 'C', 'G', 'T'] ['A', 'C', 'G', 'T'] =
      Except.ok
        { «matches» := 4, mismatches := 0, gaps := 0, alignmentLength := 4
          identity := "100.00%", similarity := "100.00%" } := by decide

example :
    calculateAlignmentStats ['A', '-', 'C', 'G', 'T'] ['A', 'T', 'T', 'G', 'A'] =
      Except.ok
        { «matches» := 2, mismatches := 2, gaps := 1, alignmentLength := 5
          identity := "40.00%", similarity := "80.00%" } := by decide

section CounterexampleChecks

/- Scratch sanity checks of the inputs used by the corrected claims. -/

example :
    (swRun { «match» := 0, mismatch := 0, gap := 1 } ['A'] ['T', 'T']).alignedSeq1.length
      = 2 := by decide

example : matchLineOf ['-'] ['-'] = ['|'] := by decide

example :
    (nwRun DEFAULT_SCORES ['-'] ['-']).alignedSeq1 = ['-'] ∧
    (nwRun DEFAULT_SCORES ['-'] ['-']).alignedSeq2 = ['-'] := by decide

end CounterexampleChecks

/-! ## Correctness of the Needleman–Wunsch fill loops

The nested folds write each interior cell exactly once, in row-major order,
reading only cells written earlier (or boundary cells); hence the final
matrix satisfies the closed recurrence `nwG`. -/

lemma nwRowFold_zero (sc : Scores) (s1 s2 : List Char) (r : Nat)
    (M : Nat → Nat → Int) : nwRowFold sc s1 s2 r M 0 = M := by
  simp [nwRowFold]

lemma nwRowFold_succ (sc : Scores) (s1 s2 : List Char) (r : Nat)
    (M : Nat → Nat → Int) (k : Nat) :
    nwRowFold sc s1 s2 r M (k + 1) =
      nwCellUpdate sc s1 s2 (nwRowFold sc s1 s2 r M k) r (k + 1) := by
  unfold nwRowFold
  rw [List.range_succ, List.foldl_append]
  rfl

lemma nwRowsFold_zero (sc : Scores) (s1 s2 : List Char) (n : Nat)
    (M : Nat → Nat → Int) : nwRowsFold sc s1 s2 n M 0 = M := by
  simp [nwRowsFold]

lemma nwRowsFold_succ (sc : Scores) (s1 s2 : List Char) (n : Nat)
    (M : Nat → Nat → Int) (t : Nat) :
    nwRowsFold sc s1 s2 n M (t + 1) =
      nwRowFold sc s1 s2 (t + 1) (nwRowsFold sc s1 s2 n M t) n := by
  unfold nwRowsFold
  rw [List.range_succ, List.foldl_append]
  rfl

lemma nwCellUpdate_ne (sc : Scores) (s1 s2 : List Char) (M : Nat → Nat → Int)
    (i j i' j' : Nat) (h : ¬(i' = i ∧ j' = j)) :
    nwCellUpdate sc s1 s2 M i j i' j' = M i' j' := by
  simp only [nwCellUpdate, if_neg h]

lemma nwCellUpdate_eq (sc : Scores) (s1 s2 : List Char) (M : Nat → Nat → Int)
    (i j : Nat) :
    nwCellUpdate sc s1 s2 M i j i j =
      max (max (M (i - 1) (j - 1) +
                  matchScoreOf sc (s1.getD (i - 1) ' ') (s2.getD (j - 1) ' '))
               (M (i - 1) j + sc.gap))
          (M i (j - 1) + sc.gap) := by
  simp [nwCellUpdate]

lemma nwG_col0 (sc : Scores) (s1 s2 : List Char) (i : Nat) :
    nwG sc s1 s2 i 0 = (i : Int) * sc.gap := by
  cases i <;> simp [nwG]

lemma nwG_row0 (sc : Scores) (s1 s2 : List Char) (j : Nat) :
    nwG sc s1 s2 0 j = (j : Int) * sc.gap := by
  cases j with
  | zero => simp [nwG]
  | succ j' =>
    simp only [nwG]
    push_cast
    ring

lemma nwG_rec (sc : Scores) (s1 s2 : List Char) (i j : Nat) :
    nwG sc s1 s2 (i + 1) (j + 1) =
      max (max (nwG sc s1 s2 i j + matchScoreOf sc (s1.getD i ' ') (s2.getD j ' '))
               (nwG sc s1 s2 i (j + 1) + sc.gap))
          (nwG sc s1 s2 (i + 1) j + sc.gap) := by
  simp [nwG]

lemma nwInit_eq_nwG (sc : Scores) (s1 s2 : List Char) (i j : Nat)
    (h : i = 0 ∨ j = 0) : nwInit sc i j = nwG sc s1 s2 i j := by
  rcases h with h | h
  · subst h
    rw [nwG_row0]
    cases j <;> simp [nwInit]
  · subst h
    rw [nwG_col0]
    simp [nwInit]

/-- Inner-loop invariant: filling columns `1..k` of row `r` leaves every
other cell unchanged and gives row `r` its recurrence values up to column
`k`, provided row `r - 1` and the row-`r` boundary cell already carry their
recurrence values. -/
lemma nwRowFold_correct (sc : Scores) (s1 s2 : List Char) (n r : Nat)
    (hr : 1 ≤ r) (M : Nat → Nat → Int)
    (hprev : ∀ j, j ≤ n → M (r - 1) j = nwG sc s1 s2 (r - 1) j)
    (h0 : M r 0 = nwG sc s1 s2 r 0) :
    ∀ k, k ≤ n →
      (∀ i' j', ¬(i' = r ∧ 1 ≤ j' ∧ j' ≤ k) →
          nwRowFold sc s1 s2 r M k i' j' = M i' j') ∧
      (∀ j, j ≤ k → nwRowFold sc s1 s2 r M k r j = nwG sc s1 s2 r j) := by
  intro k
  induction k with
  | zero =>
    intro _
    refine ⟨fun i' j' _ => by rw [nwRowFold_zero], fun j hj => ?_⟩
    interval_cases j
    rw [nwRowFold_zero]; exact h0
  | succ k ih =>
    intro hk1
    obtain ⟨ihu, ihv⟩ := ih (by omega)
    rw [nwRowFold_succ]
    constructor
    · intro i' j' h
      rw [nwCellUpdate_ne sc s1 s2 _ r (k + 1) i' j' (by
        rintro ⟨rfl, rfl⟩
        exact h ⟨rfl, by omega, le_rfl⟩)]
      exact ihu i' j' (fun ⟨h1, h2, h3⟩ => h ⟨h1, h2, by omega⟩)
    · intro j hj
      rcases Nat.lt_or_ge j (k + 1) with hjk | hjk
      · rw [nwCellUpdate_ne sc s1 s2 _ r (k + 1) r j (by
          rintro ⟨-, rfl⟩; omega)]
        exact ihv j (by omega)
      · have hjeq : j = k + 1 := by omega
        subst hjeq
        rw [nwCellUpdate_eq]
        simp only [Nat.add_sub_cancel]
        have e1 : nwRowFold sc s1 s2 r M k (r - 1) k =
            nwG sc s1 s2 (r - 1) k := by
          rw [ihu (r - 1) k (by rintro ⟨h1, -, -⟩; omega)]
          exact hprev k (by omega)
        have e2 : nwRowFold sc s1 s2 r M k (r - 1) (k + 1) =
            nwG sc s1 s2 (r - 1) (k + 1) := by
          rw [ihu (r - 1) (k + 1) (by rintro ⟨h1, -, -⟩; omega)]
          exact hprev (k + 1) hk1
        have e3 : nwRowFold sc s1 s2 r M k r k = nwG sc s1 s2 r k :=
          ihv k le_rfl
        rw [e1, e2, e3]
        obtain ⟨r', rfl⟩ : ∃ r', r = r' + 1 := ⟨r - 1, by omega⟩
        simp only [Nat.add_sub_cancel]
        exact (nwG_rec sc s1 s2 r' k).symm

/-- Outer-loop invariant: after `t` rows, rows `0..t` carry their
recurrence values (in columns `0..n`) and later rows still carry the
initialisation values. -/
lemma nwRowsFold_correct (sc : Scores) (s1 s2 : List Char) (n : Nat) :
    ∀ t,
      (∀ i j, i ≤ t → j ≤ n →
          nwRowsFold sc s1 s2 n (nwInit sc) t i j = nwG sc s1 s2 i j) ∧
      (∀ i j, t < i →
          nwRowsFold sc s1 s2 n (nwInit sc) t i j = nwInit sc i j) := by
  intro t
  induction t with
  | zero =>
    refine ⟨fun i j hi hj => ?_, fun i j hi => by rw [nwRowsFold_zero]⟩
    interval_cases i
    rw [nwRowsFold_zero]
    exact nwInit_eq_nwG sc s1 s2 0 j (Or.inl rfl)
  | succ t ih =>
    obtain ⟨ih1, ih2⟩ := ih
    rw [nwRowsFold_succ]
    have hprev : ∀ j, j ≤ n →
        nwRowsFold sc s1 s2 n (nwInit sc) t ((t + 1) - 1) j =
          nwG sc s1 s2 ((t + 1) - 1) j := by
      intro j hj
      simpa using ih1 t j le_rfl hj
    have h0 : nwRowsFold sc s1 s2 n (nwInit sc) t (t + 1) 0 =
        nwG sc s1 s2 (t + 1) 0 := by
      rw [ih2 (t + 1) 0 (by omega)]
      exact nwInit_eq_nwG sc s1 s2 (t + 1) 0 (Or.inr rfl)
    obtain ⟨hu, hv⟩ :=
      nwRowFold_correct sc s1 s2 n (t + 1) (by omega) _ hprev h0 n le_rfl
    constructor
    · intro i j hi hj
      rcases Nat.lt_or_ge i (t + 1) with hit | hit
      · rw [hu i j (by rintro ⟨rfl, -, -⟩; omega)]
        exact ih1 i j (by omega) hj
      · have : i = t + 1 := by omega
        subst this
        exact hv j hj
    · intro i j hi
      rw [hu i j (by rintro ⟨rfl, -, -⟩; omega)]
      exact ih2 i j (by omega)

/-- The filled Needleman–Wunsch matrix satisfies the closed recurrence at
every in-range cell. -/
lemma nwMatrix_eq_nwG (sc : Scores) (s1 s2 : List Char) (i j : Nat)
    (hi : i ≤ s1.length) (hj : j ≤ s2.length) :
    nwMatrix sc s1 s2 i j = nwG sc s1 s2 i j :=
  (nwRowsFold_correct sc s1 s2 s2.length s1.length).1 i j hi hj

/-! ## Correctness of the Smith–Waterman fill loops

Same single-writer argument as for the global fill, with the additional
running-maximum invariant: `maxPos` is always the row-major-first processed
cell attaining `maxScore`, because the tracker only moves on a strictly
greater value. -/

/-- Row-major (`i` ascending, then `j` ascending) strict order on matrix
coordinates. -/
def rmBefore (p q : Nat × Nat) : Prop :=
  p.1 < q.1 ∨ (p.1 = q.1 ∧ p.2 < q.2)

lemma swG_col0 (sc : Scores) (s1 s2 : List Char) (i : Nat) :
    swG sc s1 s2 i 0 = 0 := by
  cases i <;> simp [swG]

lemma swG_row0 (sc : Scores) (s1 s2 : List Char) (j : Nat) :
    swG sc s1 s2 0 j = 0 := by
  cases j <;> simp [swG]

lemma swG_rec (sc : Scores) (s1 s2 : List Char) (i j : Nat) :
    swG sc s1 s2 (i + 1) (j + 1) =
      max (max (max 0 (swG sc s1 s2 i j +
                        matchScoreOf sc (s1.getD i ' ') (s2.getD j ' ')))
               (swG sc s1 s2 i (j + 1) + sc.gap))
          (swG sc s1 s2 (i + 1) j + sc.gap) := by
  simp [swG]

lemma swG_boundary (sc : Scores) (s1 s2 : List Char) (i j : Nat)
    (h : i = 0 ∨ j = 0) : swG sc s1 s2 i j = 0 := by
  rcases h with h | h
  · subst h; exact swG_row0 sc s1 s2 j
  · subst h; exact swG_col0 sc s1 s2 i

lemma swG_nonneg (sc : Scores) (s1 s2 : List Char) (i j : Nat) :
    0 ≤ swG sc s1 s2 i j := by
  match i, j with
  | i, 0 => rw [swG_col0]
  | 0, j + 1 => rw [swG_row0]
  | i + 1, j + 1 =>
    rw [swG_rec]
    calc (0 : Int) ≤ max 0 (swG sc s1 s2 i j +
        matchScoreOf sc (s1.getD i ' ') (s2.getD j ' ')) := le_max_left _ _
    _ ≤ _ := le_trans (le_max_left _ _) (le_max_left _ _)

/-- The loop invariant of the Smith–Waterman fill: after processing rows
`1..r-1` completely and row `r` up to column `k` (row-major order), the
processed region carries its recurrence values, and
`(maxScore, maxPos)` is exactly the first-occurrence running maximum over
the processed region (with the initial `(0, (0,0))` accounting for the
all-zero boundary). -/
structure SWInv (sc : Scores) (s1 s2 : List Char) (m n r k : Nat)
    (st : SWFillState) : Prop where
  mcorrect : ∀ i j, i ≤ m → j ≤ n →
    (i = 0 ∨ j = 0 ∨ i < r ∨ (i = r ∧ j ≤ k)) → st.M i j = swG sc s1 s2 i j
  maxNonneg : 0 ≤ st.maxScore
  maxVal : swG sc s1 s2 st.maxPos.1 st.maxPos.2 = st.maxScore
  maxRow : st.maxPos.1 ≤ m
  maxCol : st.maxPos.2 ≤ n
  maxProcessed : st.maxPos = (0, 0) ∨
    (1 ≤ st.maxPos.1 ∧ 1 ≤ st.maxPos.2 ∧
      (st.maxPos.1 < r ∨ (st.maxPos.1 = r ∧ st.maxPos.2 ≤ k)))
  maxUb : ∀ i j, 1 ≤ i → 1 ≤ j → j ≤ n →
    (i < r ∨ (i = r ∧ j ≤ k)) → swG sc s1 s2 i j ≤ st.maxScore
  maxFirst : ∀ i j, 1 ≤ i → 1 ≤ j → j ≤ n →
    (i < r ∨ (i = r ∧ j ≤ k)) → rmBefore (i, j) st.maxPos →
    swG sc s1 s2 i j < st.maxScore
  maxZero : st.maxScore = 0 → st.maxPos = (0, 0)

lemma swRowFold_zero (sc : Scores) (s1 s2 : List Char) (r : Nat)
    (st : SWFillState) : swRowFold sc s1 s2 r st 0 = st := by
  simp [swRowFold]

lemma swRowFold_succ (sc : Scores) (s1 s2 : List Char) (r : Nat)
    (st : SWFillState) (k : Nat) :
    swRowFold sc s1 s2 r st (k + 1) =
      swCellStep sc s1 s2 (swRowFold sc s1 s2 r st k) r (k + 1) := by
  unfold swRowFold
  rw [List.range_succ, List.foldl_append]
  rfl

lemma swRowsFold_zero (sc : Scores) (s1 s2 : List Char) (n : Nat)
    (st : SWFillState) : swRowsFold sc s1 s2 n st 0 = st := by
  simp [swRowsFold]

lemma swRowsFold_succ (sc : Scores) (s1 s2 : List Char) (n : Nat)
    (st : SWFillState) (t : Nat) :
    swRowsFold sc s1 s2 n st (t + 1) =
      swRowFold sc s1 s2 (t + 1) (swRowsFold sc s1 s2 n st t) n := by
  unfold swRowsFold
  rw [List.range_succ, List.foldl_append]
  rfl

lemma swCellStep_M (sc : Scores) (s1 s2 : List Char) (st : SWFillState)
    (i j i' j' : Nat) :
    (swCellStep sc s1 s2 st i j).M i' j' =
      if i' = i ∧ j' = j then swCellVal sc s1 s2 st.M i j else st.M i' j' := by
  simp only [swCellStep]
  split <;> rfl

lemma swCellStep_max_pos (sc : Scores) (s1 s2 : List Char) (st : SWFillState)
    (i j : Nat) (h : swCellVal sc s1 s2 st.M i j > st.maxScore) :
    (swCellStep sc s1 s2 st i j).maxScore = swCellVal sc s1 s2 st.M i j ∧
      (swCellStep sc s1 s2 st i j).maxPos = (i, j) := by
  simp only [swCellStep]
  rw [if_pos h]
  exact ⟨rfl, rfl⟩

lemma swCellStep_max_neg (sc : Scores) (s1 s2 : List Char) (st : SWFillState)
    (i j : Nat) (h : ¬swCellVal sc s1 s2 st.M i j > st.maxScore) :
    (swCellStep sc s1 s2 st i j).maxScore = st.maxScore ∧
      (swCellStep sc s1 s2 st i j).maxPos = st.maxPos := by
  simp only [swCellStep]
  rw [if_neg h]
  exact ⟨rfl, rfl⟩

/-- Processing cell `(r, k+1)` preserves the fill invariant. -/
lemma swCellStep_inv (sc : Scores) (s1 s2 : List Char) (m n r k : Nat)
    (st : SWFillState) (hr1 : 1 ≤ r) (hrm : r ≤ m) (hkn : k + 1 ≤ n)
    (hinv : SWInv sc s1 s2 m n r k st) :
    SWInv sc s1 s2 m n r (k + 1) (swCellStep sc s1 s2 st r (k + 1)) := by
  obtain ⟨mc, mn, mv, mr, mco, mp, mub, mf, mz⟩ := hinv
  have hval : swCellVal sc s1 s2 st.M r (k + 1) = swG sc s1 s2 r (k + 1) := by
    obtain ⟨r', rfl⟩ : ∃ r', r = r' + 1 := ⟨r - 1, by omega⟩
    unfold swCellVal
    simp only [Nat.add_sub_cancel]
    rw [mc r' k (by omega) (by omega) (by omega),
      mc r' (k + 1) (by omega) (by omega) (by omega),
      mc (r' + 1) k (by omega) (by omega) (by omega)]
    exact (swG_rec sc s1 s2 r' k).symm
  have hM : ∀ i j, i ≤ m → j ≤ n →
      (i = 0 ∨ j = 0 ∨ i < r ∨ (i = r ∧ j ≤ k + 1)) →
      (swCellStep sc s1 s2 st r (k + 1)).M i j = swG sc s1 s2 i j := by
    intro i j hi hj hcond
    rw [swCellStep_M]
    by_cases hij : i = r ∧ j = k + 1
    · obtain ⟨rfl, rfl⟩ := hij
      rw [if_pos ⟨rfl, rfl⟩]
      exact hval
    · rw [if_neg hij]
      exact mc i j hi hj (by
        rcases hcond with h | h | h | ⟨h1, h2⟩
        · exact Or.inl h
        · exact Or.inr (Or.inl h)
        · exact Or.inr (Or.inr (Or.inl h))
        · exact Or.inr (Or.inr (Or.inr ⟨h1, by omega⟩)))
  by_cases hgt : swCellVal sc s1 s2 st.M r (k + 1) > st.maxScore
  · obtain ⟨hms, hmp⟩ := swCellStep_max_pos sc s1 s2 st r (k + 1) hgt
    have hgt' : st.maxScore < swG sc s1 s2 r (k + 1) := by rwa [hval] at hgt
    refine ⟨hM, ?_, ?_, ?_, ?_, ?_, ?_, ?_, ?_⟩
    · rw [hms, hval]; omega
    · rw [hms, hmp]; exact hval.symm
    · rw [hmp]; exact hrm
    · rw [hmp]; exact hkn
    · rw [hmp]; exact Or.inr ⟨hr1, by omega, Or.inr ⟨rfl, le_rfl⟩⟩
    · intro i j hi hj hjn hcond
      rw [hms, hval]
      rcases hcond with h | ⟨he, h⟩
      · have := mub i j hi hj hjn (Or.inl h)
        omega
      · subst he
        rcases Nat.lt_or_ge j (k + 1) with hjk | hjk
        · have := mub i j hi hj hjn (Or.inr ⟨rfl, by omega⟩)
          omega
        · have hjeq : j = k + 1 := by omega
          subst hjeq
          exact le_rfl
    · intro i j hi hj hjn hcond hb
      rw [hmp] at hb
      simp only [rmBefore] at hb
      rw [hms, hval]
      have hold : i < r ∨ (i = r ∧ j ≤ k) := by omega
      have := mub i j hi hj hjn hold
      omega
    · intro h
      rw [hms, hval] at h
      omega
  · obtain ⟨hms, hmp⟩ := swCellStep_max_neg sc s1 s2 st r (k + 1) hgt
    have hle : swG sc s1 s2 r (k + 1) ≤ st.maxScore := by
      rw [← hval]; omega
    refine ⟨hM, ?_, ?_, ?_, ?_, ?_, ?_, ?_, ?_⟩
    · rw [hms]; exact mn
    · rw [hms, hmp]; exact mv
    · rw [hmp]; exact mr
    · rw [hmp]; exact mco
    · rw [hmp]
      rcases mp with h | ⟨h1, h2, h3⟩
      · exact Or.inl h
      · exact Or.inr ⟨h1, h2, by omega⟩
    · intro i j hi hj hjn hcond
      rw [hms]
      rcases hcond with h | ⟨he, h⟩
      · exact mub i j hi hj hjn (Or.inl h)
      · subst he
        rcases Nat.lt_or_ge j (k + 1) with hjk | hjk
        · exact mub i j hi hj hjn (Or.inr ⟨rfl, by omega⟩)
        · have hjeq : j = k + 1 := by omega
          subst hjeq
          exact hle
    · intro i j hi hj hjn hcond hb
      rw [hmp] at hb
      rw [hms]
      by_cases hold : i < r ∨ (i = r ∧ j ≤ k)
      · exact mf i j hi hj hjn hold hb
      · exfalso
        have hij : i = r ∧ j = k + 1 := by
          rcases hcond with h | ⟨he, h⟩
          · exact absurd (Or.inl h) hold
          · exact ⟨he, by omega⟩
        obtain ⟨rfl, rfl⟩ := hij
        simp only [rmBefore] at hb
        rcases mp with h00 | ⟨h1, h2, h3⟩
        · have e1 : st.maxPos.1 = 0 := by rw [h00]
          have e2 : st.maxPos.2 = 0 := by rw [h00]
          omega
        · omega
    · intro h
      rw [hms] at h
      rw [hmp]
      exact mz h

/-- Running the inner fill loop over columns `1..k` of row `r` preserves
the invariant, advancing its column marker. -/
lemma swRowFold_inv (sc : Scores) (s1 s2 : List Char) (m n r : Nat)
    (hr1 : 1 ≤ r) (hrm : r ≤ m) :
    ∀ k, k ≤ n → ∀ st, SWInv sc s1 s2 m n r 0 st →
      SWInv sc s1 s2 m n r k (swRowFold sc s1 s2 r st k) := by
  intro k
  induction k with
  | zero =>
    intro _ st h
    rw [swRowFold_zero]
    exact h
  | succ k ih =>
    intro hk st h
    rw [swRowFold_succ]
    exact swCellStep_inv sc s1 s2 m n r k _ hr1 hrm hk (ih (by omega) st h)

/-- Completing row `r` is the same as standing at the start of row `r+1`. -/
lemma SWInv_next_row (sc : Scores) (s1 s2 : List Char) (m n r : Nat)
    (st : SWFillState) (h : SWInv sc s1 s2 m n r n st) :
    SWInv sc s1 s2 m n (r + 1) 0 st := by
  obtain ⟨mc, mn, mv, mr, mco, mp, mub, mf, mz⟩ := h
  refine ⟨?_, mn, mv, mr, mco, ?_, ?_, ?_, mz⟩
  · intro i j hi hj hcond
    exact mc i j hi hj (by omega)
  · rcases mp with h | ⟨h1, h2, h3⟩
    · exact Or.inl h
    · exact Or.inr ⟨h1, h2, by omega⟩
  · intro i j hi hj hjn hcond
    exact mub i j hi hj hjn (by omega)
  · intro i j hi hj hjn hcond hb
    exact mf i j hi hj hjn (by omega) hb

/-- The initial fill state satisfies the invariant with nothing processed. -/
lemma swInitState_inv (sc : Scores) (s1 s2 : List Char) (m n : Nat) :
    SWInv sc s1 s2 m n 1 0 swInitState := by
  refine ⟨?_, le_rfl, ?_, Nat.zero_le m, Nat.zero_le n, Or.inl rfl, ?_, ?_, fun _ => rfl⟩
  · intro i j hi hj hcond
    exact (swG_boundary sc s1 s2 i j (by omega)).symm
  · exact swG_col0 sc s1 s2 0
  · intro i j hi hj hjn hcond
    omega
  · intro i j hi hj hjn hcond hb
    omega

/-- Outer-loop invariant: after `t` rows the invariant stands at the start
of row `t + 1`. -/
lemma swRowsFold_inv (sc : Scores) (s1 s2 : List Char) (m n : Nat) :
    ∀ t, t ≤ m →
      SWInv sc s1 s2 m n (t + 1) 0 (swRowsFold sc s1 s2 n swInitState t) := by
  intro t
  induction t with
  | zero =>
    intro _
    rw [swRowsFold_zero]
    exact swInitState_inv sc s1 s2 m n
  | succ t ih =>
    intro ht
    rw [swRowsFold_succ]
    exact SWInv_next_row sc s1 s2 m n (t + 1) _
      (swRowFold_inv sc s1 s2 m n (t + 1) (by omega) (by omega) n le_rfl _
        (ih (by omega)))

/-- The invariant satisfied by the completed Smith–Waterman fill. -/
lemma swFillSt_inv (sc : Scores) (s1 s2 : List Char) :
    SWInv sc s1 s2 s1.length s2.length (s1.length + 1) 0 (swFillSt sc s1 s2) :=
  swRowsFold_inv sc s1 s2 s1.length s2.length s1.length le_rfl

/-- The filled Smith–Waterman matrix satisfies the zero-floored recurrence
at every in-range cell. -/
lemma swMatrix_eq_swG (sc : Scores) (s1 s2 : List Char) (i j : Nat)
    (hi : i ≤ s1.length) (hj : j ≤ s2.length) :
    swMatrix sc s1 s2 i j = swG sc s1 s2 i j :=
  (swFillSt_inv sc s1 s2).mcorrect i j hi hj (by omega)

/-! ## Properties of the Needleman–Wunsch traceback -/

/-- Every traceback step appends one cell to the path and one symbol to
each aligned string, so the strings stay equal in length, the path is one
longer, and the number of steps is bounded by `i + j` (each iteration
decreases `i + j` by at least one). -/
lemma nwTbA_lengths (sc : Scores) (s1 s2 : List Char) (M : Nat → Nat → Int) :
    ∀ fuel i j,
      (nwTbA sc s1 s2 M fuel i j).a1.length = (nwTbA sc s1 s2 M fuel i j).a2.length ∧
      (nwTbA sc s1 s2 M fuel i j).path.length = (nwTbA sc s1 s2 M fuel i j).a1.length + 1 ∧
      (nwTbA sc s1 s2 M fuel i j).a1.length ≤ i + j := by
  intro fuel
  induction fuel with
  | zero => intro i j; simp [nwTbA]
  | succ fuel ih =>
    intro i j
    simp only [nwTbA]
    split_ifs with hc1 hc2 hc3 hc4 hc5 hc6
    · simp
    · obtain ⟨e1, e2, e3⟩ := ih 0 (j - 1)
      refine ⟨by simp [e1], by simp [e2], ?_⟩
      simp only [List.length_append, List.length_cons, List.length_nil]
      omega
    · obtain ⟨e1, e2, e3⟩ := ih (i - 1) 0
      refine ⟨by simp [e1], by simp [e2], ?_⟩
      simp only [List.length_append, List.length_cons, List.length_nil]
      omega
    · obtain ⟨e1, e2, e3⟩ := ih (i - 1) (j - 1)
      refine ⟨by simp [e1], by simp [e2], ?_⟩
      simp only [List.length_append, List.length_cons, List.length_nil]
      omega
    · obtain ⟨e1, e2, e3⟩ := ih (i - 1) j
      refine ⟨by simp [e1], by simp [e2], ?_⟩
      simp only [List.length_append, List.length_cons, List.length_nil]
      omega
    · obtain ⟨e1, e2, e3⟩ := ih i (j - 1)
      refine ⟨by simp [e1], by simp [e2], ?_⟩
      simp only [List.length_append, List.length_cons, List.length_nil]
      omega
    · obtain ⟨e1, e2, e3⟩ := ih (i - 1) (j - 1)
      refine ⟨by simp [e1], by simp [e2], ?_⟩
      simp only [List.length_append, List.length_cons, List.length_nil]
      omega

lemma getD_ne_of_not_mem (c d : Char) (hd : d ≠ c) :
    ∀ (l : List Char) (k : Nat), c ∉ l → l.getD k d ≠ c := by
  intro l
  induction l with
  | nil => intro k _; simpa [List.getD_nil] using hd
  | cons a as ih =>
    intro k hc
    cases k with
    | zero =>
      simp only [List.getD_cons_zero]
      intro h
      exact hc (by simp [h])
    | succ k =>
      simp only [List.getD_cons_succ]
      exact ih k fun h => hc (List.mem_cons_of_mem a h)

/-- If neither input contains the gap marker, no traceback step emits the
gap marker on both sides of a position: every branch emits either a symbol
from an input (never `'-'`) or a single gap paired with an input symbol. -/
lemma nwTbA_no_double_gap (sc : Scores) (s1 s2 : List Char)
    (M : Nat → Nat → Int) (h1 : '-' ∉ s1) (h2 : '-' ∉ s2) :
    ∀ fuel i j p,
      p ∈ (nwTbA sc s1 s2 M fuel i j).a1.zip (nwTbA sc s1 s2 M fuel i j).a2 →
      ¬(p.1 = '-' ∧ p.2 = '-') := by
  have hs1 : ∀ k, s1.getD k ' ' ≠ '-' := fun k =>
    getD_ne_of_not_mem '-' ' ' (by decide) s1 k h1
  have hs2 : ∀ k, s2.getD k ' ' ≠ '-' := fun k =>
    getD_ne_of_not_mem '-' ' ' (by decide) s2 k h2
  intro fuel
  induction fuel with
  | zero => intro i j p hp; simp [nwTbA] at hp
  | succ fuel ih =>
    intro i j p hp
    simp only [nwTbA] at hp
    split_ifs at hp with hc1 hc2 hc3 hc4 hc5 hc6
    · simp at hp
    · rw [List.zip_append (nwTbA_lengths sc s1 s2 M fuel 0 (j - 1)).1] at hp
      rcases List.mem_append.mp hp with hp | hp
      · exact ih 0 (j - 1) p hp
      · simp only [List.zip_cons_cons, List.zip_nil_right, List.mem_singleton] at hp
        subst hp
        rintro ⟨-, pb⟩
        exact hs2 (j - 1) pb
    · rw [List.zip_append (nwTbA_lengths sc s1 s2 M fuel (i - 1) 0).1] at hp
      rcases List.mem_append.mp hp with hp | hp
      · exact ih (i - 1) 0 p hp
      · simp only [List.zip_cons_cons, List.zip_nil_right, List.mem_singleton] at hp
        subst hp
        rintro ⟨pa, -⟩
        exact hs1 (i - 1) pa
    · rw [List.zip_append (nwTbA_lengths sc s1 s2 M fuel (i - 1) (j - 1)).1] at hp
      rcases List.mem_append.mp hp with hp | hp
      · exact ih (i - 1) (j - 1) p hp
      · simp only [List.zip_cons_cons, List.zip_nil_right, List.mem_singleton] at hp
        subst hp
        rintro ⟨pa, -⟩
        exact hs1 (i - 1) pa
    · rw [List.zip_append (nwTbA_lengths sc s1 s2 M fuel (i - 1) j).1] at hp
      rcases List.mem_append.mp hp with hp | hp
      · exact ih (i - 1) j p hp
      · simp only [List.zip_cons_cons, List.zip_nil_right, List.mem_singleton] at hp
        subst hp
        rintro ⟨pa, -⟩
        exact hs1 (i - 1) pa
    · rw [List.zip_append (nwTbA_lengths sc s1 s2 M fuel i (j - 1)).1] at hp
      rcases List.mem_append.mp hp with hp | hp
      · exact ih i (j - 1) p hp
      · simp only [List.zip_cons_cons, List.zip_nil_right, List.mem_singleton] at hp
        subst hp
        rintro ⟨-, pb⟩
        exact hs2 (j - 1) pb
    · rw [List.zip_append (nwTbA_lengths sc s1 s2 M fuel (i - 1) (j - 1)).1] at hp
      rcases List.mem_append.mp hp with hp | hp
      · exact ih (i - 1) (j - 1) p hp
      · simp only [List.zip_cons_cons, List.zip_nil_right, List.mem_singleton] at hp
        subst hp
        rintro ⟨pa, -⟩
        exact hs1 (i - 1) pa

/-- If `M` satisfies the interior Needleman–Wunsch recurrence on the grid
the traceback walks, the defensive final `else` (forced diagonal) branch
never runs: the current cell is a `max` of the three candidates, hence
equals one of them. -/
lemma nwTbA_fallback (sc : Scores) (s1 s2 : List Char) (M : Nat → Nat → Int)
    (m n : Nat)
    (hrec : ∀ i j, 1 ≤ i → i ≤ m → 1 ≤ j → j ≤ n →
      M i j =
        max (max (M (i - 1) (j - 1) +
                    matchScoreOf sc (s1.getD (i - 1) ' ') (s2.getD (j - 1) ' '))
                 (M (i - 1) j + sc.gap))
            (M i (j - 1) + sc.gap)) :
    ∀ fuel i j, i ≤ m → j ≤ n → (nwTbA sc s1 s2 M fuel i j).fallback = 0 := by
  intro fuel
  induction fuel with
  | zero => intro i j _ _; simp [nwTbA]
  | succ fuel ih =>
    intro i j hi hj
    simp only [nwTbA]
    split_ifs with hc1 hc2 hc3 hc4 hc5 hc6
    · simp
    · simpa using ih 0 (j - 1) (by omega) (by omega)
    · simpa using ih (i - 1) 0 (by omega) (by omega)
    · simpa using ih (i - 1) (j - 1) (by omega) (by omega)
    · simpa using ih (i - 1) j (by omega) (by omega)
    · simpa using ih i (j - 1) (by omega) (by omega)
    · exfalso
      have hrij := hrec i j (by omega) hi (by omega) hj
      rcases max_choice (max (M (i - 1) (j - 1) +
          matchScoreOf sc (s1.getD (i - 1) ' ') (s2.getD (j - 1) ' '))
          (M (i - 1) j + sc.gap)) (M i (j - 1) + sc.gap) with h | h
      · rcases max_choice (M (i - 1) (j - 1) +
            matchScoreOf sc (s1.getD (i - 1) ' ') (s2.getD (j - 1) ' '))
            (M (i - 1) j + sc.gap) with h' | h'
        · exact hc4 (by rw [hrij, h, h'])
        · exact hc5 (by rw [hrij, h, h'])
      · exact hc6 (by rw [hrij, h])

/-! ## Properties of the Smith–Waterman traceback -/

/-- The two aligned strings grow in lockstep and the number of traceback
steps is bounded by `i + j`. -/
lemma swTbA_lengths (sc : Scores) (s1 s2 : List Char) (M : Nat → Nat → Int) :
    ∀ fuel i j,
      (swTbA sc s1 s2 M fuel i j).a1.length = (swTbA sc s1 s2 M fuel i j).a2.length ∧
      (swTbA sc s1 s2 M fuel i j).a1.length ≤ i + j := by
  intro fuel
  induction fuel with
  | zero => intro i j; simp [swTbA]
  | succ fuel ih =>
    intro i j
    simp only [swTbA]
    split_ifs with hc1 hc2 hc3 hc4
    · simp
    · obtain ⟨e1, e2⟩ := ih (i - 1) (j - 1)
      refine ⟨by simp [e1], ?_⟩
      simp only [List.length_append, List.length_cons, List.length_nil]
      omega
    · obtain ⟨e1, e2⟩ := ih (i - 1) j
      refine ⟨by simp [e1], ?_⟩
      simp only [List.length_append, List.length_cons, List.length_nil]
      omega
    · obtain ⟨e1, e2⟩ := ih i (j - 1)
      refine ⟨by simp [e1], ?_⟩
      simp only [List.length_append, List.length_cons, List.length_nil]
      omega
    · simp

/-- Smith–Waterman version of the no-double-gap property. -/
lemma swTbA_no_double_gap (sc : Scores) (s1 s2 : List Char)
    (M : Nat → Nat → Int) (h1 : '-' ∉ s1) (h2 : '-' ∉ s2) :
    ∀ fuel i j p,
      p ∈ (swTbA sc s1 s2 M fuel i j).a1.zip (swTbA sc s1 s2 M fuel i j).a2 →
      ¬(p.1 = '-' ∧ p.2 = '-') := by
  have hs1 : ∀ k, s1.getD k ' ' ≠ '-' := fun k =>
    getD_ne_of_not_mem '-' ' ' (by decide) s1 k h1
  have hs2 : ∀ k, s2.getD k ' ' ≠ '-' := fun k =>
    getD_ne_of_not_mem '-' ' ' (by decide) s2 k h2
  intro fuel
  induction fuel with
  | zero => intro i j p hp; simp [swTbA] at hp
  | succ fuel ih =>
    intro i j p hp
    simp only [swTbA] at hp
    split_ifs at hp with hc1 hc2 hc3 hc4
    · simp at hp
    · rw [List.zip_append (swTbA_lengths sc s1 s2 M fuel (i - 1) (j - 1)).1] at hp
      rcases List.mem_append.mp hp with hp | hp
      · exact ih (i - 1) (j - 1) p hp
      · simp only [List.zip_cons_cons, List.zip_nil_right, List.mem_singleton] at hp
        subst hp
        rintro ⟨pa, -⟩
        exact hs1 (i - 1) pa
    · rw [List.zip_append (swTbA_lengths sc s1 s2 M fuel (i - 1) j).1] at hp
      rcases List.mem_append.mp hp with hp | hp
      · exact ih (i - 1) j p hp
      · simp only [List.zip_cons_cons, List.zip_nil_right, List.mem_singleton] at hp
        subst hp
        rintro ⟨pa, -⟩
        exact hs1 (i - 1) pa
    · rw [List.zip_append (swTbA_lengths sc s1 s2 M fuel i (j - 1)).1] at hp
      rcases List.mem_append.mp hp with hp | hp
      · exact ih i (j - 1) p hp
      · simp only [List.zip_cons_cons, List.zip_nil_right, List.mem_singleton] at hp
        subst hp
        rintro ⟨-, pb⟩
        exact hs2 (j - 1) pb
    · simp at hp

/-- If `M` satisfies the interior zero-floored recurrence, the defensive
`break` branch never runs: inside the loop the current value is positive,
so it cannot be the `0` arm of the four-way `max` and must equal one of the
three candidates. -/
lemma swTbA_no_break (sc : Scores) (s1 s2 : List Char) (M : Nat → Nat → Int)
    (m n : Nat)
    (hrec : ∀ i j, 1 ≤ i → i ≤ m → 1 ≤ j → j ≤ n →
      M i j =
        max (max (max 0 (M (i - 1) (j - 1) +
                    matchScoreOf sc (s1.getD (i - 1) ' ') (s2.getD (j - 1) ' ')))
                 (M (i - 1) j + sc.gap))
            (M i (j - 1) + sc.gap)) :
    ∀ fuel i j, i ≤ m → j ≤ n → (swTbA sc s1 s2 M fuel i j).broke = false := by
  intro fuel
  induction fuel with
  | zero => intro i j _ _; simp [swTbA]
  | succ fuel ih =>
    intro i j hi hj
    simp only [swTbA]
    split_ifs with hc1 hc2 hc3 hc4
    · simp
    · simpa using ih (i - 1) (j - 1) (by omega) (by omega)
    · simpa using ih (i - 1) j (by omega) (by omega)
    · simpa using ih i (j - 1) (by omega) (by omega)
    · exfalso
      push_neg at hc1
      obtain ⟨hi0, hj0, hpos⟩ := hc1
      have hrij := hrec i j (by omega) hi (by omega) hj
      rcases max_choice (max (max 0 (M (i - 1) (j - 1) +
          matchScoreOf sc (s1.getD (i - 1) ' ') (s2.getD (j - 1) ' ')))
          (M (i - 1) j + sc.gap)) (M i (j - 1) + sc.gap) with h | h
      · rcases max_choice (max 0 (M (i - 1) (j - 1) +
            matchScoreOf sc (s1.getD (i - 1) ' ') (s2.getD (j - 1) ' ')))
            (M (i - 1) j + sc.gap) with h' | h'
        · rcases max_choice (0 : Int) (M (i - 1) (j - 1) +
              matchScoreOf sc (s1.getD (i - 1) ' ') (s2.getD (j - 1) ' ')) with h'' | h''
          · rw [hrij, h, h', h''] at hpos
            omega
          · exact hc2 (by rw [hrij, h, h', h''])
        · exact hc3 (by rw [hrij, h, h'])
      · exact hc4 (by rw [hrij, h])

/-- A traceback started at the origin (the `maxScore = 0` case) exits
immediately. -/
lemma swTbA_start_zero (sc : Scores) (s1 s2 : List Char)
    (M : Nat → Nat → Int) (fuel : Nat) :
    swTbA sc s1 s2 M fuel 0 0 = ⟨[(0, 0)], [], [], (0, 0), false⟩ := by
  cases fuel <;> simp [swTbA]

/-! ## Properties of the formatter and statistics -/

lemma matchLineOf_length (a b : List Char) (h : a.length = b.length) :
    (matchLineOf a b).length = a.length := by
  simp [matchLineOf, h]

lemma matchLineOf_getD (a : List Char) :
    ∀ (b : List Char) (i : Nat), i < a.length → i < b.length →
      (matchLineOf a b).getD i ' ' = indicator (a.getD i ' ') (b.getD i ' ') := by
  induction a with
  | nil => intro b i hi _; simp at hi
  | cons x xs ih =>
    intro b i hi hb
    cases b with
    | nil => simp at hb
    | cons y ys =>
      cases i with
      | zero => simp [matchLineOf]
      | succ i =>
        simp only [matchLineOf, List.zipWith_cons_cons, List.getD_cons_succ]
        exact ih ys i (by simpa using hi) (by simpa using hb)

/-- "Gap" position of the statistics classification: either side is the gap
marker (tested first by the source loop). -/
def isGapPos (x y : Char) : Prop := x = '-' ∨ y = '-'

/-- "Match" position: equal symbols, neither side a gap. -/
def isMatchPos (x y : Char) : Prop := x = y ∧ ¬(x = '-' ∨ y = '-')

/-- "Mismatch" position: unequal symbols, neither side a gap. -/
def isMismatchPos (x y : Char) : Prop := x ≠ y ∧ ¬(x = '-' ∨ y = '-')

instance (x y : Char) : Decidable (isGapPos x y) := by
  unfold isGapPos; infer_instance

instance (x y : Char) : Decidable (isMatchPos x y) := by
  unfold isMatchPos; infer_instance

instance (x y : Char) : Decidable (isMismatchPos x y) := by
  unfold isMismatchPos; infer_instance

lemma statCounts_foldl (l : List (Char × Char)) :
    ∀ acc : Nat × Nat × Nat,
      l.foldl
        (fun acc p =>
          if p.1 = '-' ∨ p.2 = '-' then (acc.1, acc.2.1, acc.2.2 + 1)
          else if p.1 = p.2 then (acc.1 + 1, acc.2.1, acc.2.2)
          else (acc.1, acc.2.1 + 1, acc.2.2))
        acc =
      (acc.1 + l.countP (fun p => decide (isMatchPos p.1 p.2)),
       acc.2.1 + l.countP (fun p => decide (isMismatchPos p.1 p.2)),
       acc.2.2 + l.countP (fun p => decide (isGapPos p.1 p.2))) := by
  induction l with
  | nil => intro acc; simp
  | cons p t ih =>
    intro acc
    by_cases hg : p.1 = '-' ∨ p.2 = '-'
    · simp only [List.foldl_cons, if_pos hg, ih, List.countP_cons]
      have e1 : decide (isMatchPos p.1 p.2) = false := by
        simp [isMatchPos, hg]
      have e2 : decide (isMismatchPos p.1 p.2) = false := by
        simp [isMismatchPos, hg]
      have e3 : decide (isGapPos p.1 p.2) = true := by
        simp [isGapPos]; tauto
      simp [e1, e2, e3]
      omega
    · by_cases he : p.1 = p.2
      · simp only [List.foldl_cons, if_neg hg, if_pos he, ih, List.countP_cons]
        have e1 : decide (isMatchPos p.1 p.2) = true := by
          simp [isMatchPos, he]; tauto
        have e2 : decide (isMismatchPos p.1 p.2) = false := by
          simp [isMismatchPos, he]
        have e3 : decide (isGapPos p.1 p.2) = false := by
          simp [isGapPos]; push_neg at hg; tauto
        simp [e1, e2, e3]
        omega
      · simp only [List.foldl_cons, if_neg hg, if_neg he, ih, List.countP_cons]
        have e1 : decide (isMatchPos p.1 p.2) = false := by
          simp [isMatchPos, he]
        have e2 : decide (isMismatchPos p.1 p.2) = true := by
          simp [isMismatchPos]; tauto
        have e3 : decide (isGapPos p.1 p.2) = false := by
          simp [isGapPos]; push_neg at hg; tauto
        simp [e1, e2, e3]
        omega

lemma statCounts_eq (s1 s2 : List Char) :
    statCounts s1 s2 =
      ((s1.zip s2).countP (fun p => decide (isMatchPos p.1 p.2)),
       (s1.zip s2).countP (fun p => decide (isMismatchPos p.1 p.2)),
       (s1.zip s2).countP (fun p => decide (isGapPos p.1 p.2))) := by
  unfold statCounts
  rw [statCounts_foldl]
  simp

/-- Every position belongs to exactly one of the three classes, so the
three per-class counts sum to the list length. -/
lemma countP_three_classes (l : List (Char × Char)) :
    l.countP (fun p => decide (isMatchPos p.1 p.2)) +
      l.countP (fun p => decide (isMismatchPos p.1 p.2)) +
      l.countP (fun p => decide (isGapPos p.1 p.2)) = l.length := by
  induction l with
  | nil => simp
  | cons p t ih =>
    simp only [List.countP_cons, List.length_cons]
    by_cases hg : isGapPos p.1 p.2
    · have e1 : decide (isMatchPos p.1 p.2) = false := by
        simp [isMatchPos, isGapPos] at hg ⊢; tauto
      have e2 : decide (isMismatchPos p.1 p.2) = false := by
        simp [isMismatchPos, isGapPos] at hg ⊢; tauto
      have e3 : decide (isGapPos p.1 p.2) = true := by simpa using hg
      simp [e1, e2, e3]
      omega
    · by_cases he : p.1 = p.2
      · have e1 : decide (isMatchPos p.1 p.2) = true := by
          simp [isMatchPos]; exact ⟨he, by simpa [isGapPos] using hg⟩
        have e2 : decide (isMismatchPos p.1 p.2) = false := by
          simp [isMismatchPos, he]
        have e3 : decide (isGapPos p.1 p.2) = false := by
          simpa [isGapPos] using hg
        simp [e1, e2, e3]
        omega
      · have e1 : decide (isMatchPos p.1 p.2) = false := by
          simp [isMatchPos, he]
        have e2 : decide (isMismatchPos p.1 p.2) = true := by
          simp [isMismatchPos]; exact ⟨he, by simpa [isGapPos] using hg⟩
        have e3 : decide (isGapPos p.1 p.2) = false := by
          simpa [isGapPos] using hg
        simp [e1, e2, e3]
        omega

lemma three_classes_partition (x y : Char) :
    (isGapPos x y ∨ isMatchPos x y ∨ isMismatchPos x y) ∧
      ¬(isGapPos x y ∧ isMatchPos x y) ∧
      ¬(isGapPos x y ∧ isMismatchPos x y) ∧
      ¬(isMatchPos x y ∧ isMismatchPos x y) := by
  unfold isGapPos isMatchPos isMismatchPos
  by_cases h1 : x = '-' <;> by_cases h2 : y = '-' <;> by_cases h3 : x = y <;>
    simp [h1, h2, h3]

/-! ## Success-path glue for the aligners -/

lemma needlemanWunsch_ok (sc : Scores) (s1 s2 : List Char)
    (h1 : s1 ≠ []) (h2 : s2 ≠ []) :
    needlemanWunsch (some s1) (some s2) sc = Except.ok (nwRun sc s1 s2) := by
  have e1 : isMissing (some s1) = false := by
    simp [isMissing, List.isEmpty_iff, h1]
  have e2 : isMissing (some s2) = false := by
    simp [isMissing, List.isEmpty_iff, h2]
  simp [needlemanWunsch, e1, e2]

lemma smithWaterman_ok (sc : Scores) (s1 s2 : List Char)
    (h1 : s1 ≠ []) (h2 : s2 ≠ []) :
    smithWaterman (some s1) (some s2) sc = Except.ok (swRun sc s1 s2) := by
  have e1 : isMissing (some s1) = false := by
    simp [isMissing, List.isEmpty_iff, h1]
  have e2 : isMissing (some s2) = false := by
    simp [isMissing, List.isEmpty_iff, h2]
  simp [smithWaterman, e1, e2]

/-- The interior recurrence satisfied by the filled global matrix, phrased
with truncated-subtraction indices. -/
lemma nwMatrix_recurrence (sc : Scores) (s1 s2 : List Char) :
    ∀ i j, 1 ≤ i → i ≤ s1.length → 1 ≤ j → j ≤ s2.length →
      nwMatrix sc s1 s2 i j =
        max (max (nwMatrix sc s1 s2 (i - 1) (j - 1) +
                    matchScoreOf sc (s1.getD (i - 1) ' ') (s2.getD (j - 1) ' '))
                 (nwMatrix sc s1 s2 (i - 1) j + sc.gap))
            (nwMatrix sc s1 s2 i (j - 1) + sc.gap) := by
  intro i j hi1 him hj1 hjn
  obtain ⟨i', rfl⟩ : ∃ i', i = i' + 1 := ⟨i - 1, by omega⟩
  obtain ⟨j', rfl⟩ : ∃ j', j = j' + 1 := ⟨j - 1, by omega⟩
  simp only [Nat.add_sub_cancel]
  rw [nwMatrix_eq_nwG sc s1 s2 (i' + 1) (j' + 1) him hjn,
    nwMatrix_eq_nwG sc s1 s2 i' j' (by omega) (by omega),
    nwMatrix_eq_nwG sc s1 s2 i' (j' + 1) (by omega) hjn,
    nwMatrix_eq_nwG sc s1 s2 (i' + 1) j' him (by omega)]
  exact nwG_rec sc s1 s2 i' j'

/-- The interior zero-floored recurrence satisfied by the filled local
matrix. -/
lemma swMatrix_recurrence (sc : Scores) (s1 s2 : List Char) :
    ∀ i j, 1 ≤ i → i ≤ s1.length → 1 ≤ j → j ≤ s2.length →
      swMatrix sc s1 s2 i j =
        max (max (max 0 (swMatrix sc s1 s2 (i - 1) (j - 1) +
                    matchScoreOf sc (s1.getD (i - 1) ' ') (s2.getD (j - 1) ' ')))
                 (swMatrix sc s1 s2 (i - 1) j + sc.gap))
            (swMatrix sc s1 s2 i (j - 1) + sc.gap) := by
  intro i j hi1 him hj1 hjn
  obtain ⟨i', rfl⟩ : ∃ i', i = i' + 1 := ⟨i - 1, by omega⟩
  obtain ⟨j', rfl⟩ : ∃ j', j = j' + 1 := ⟨j - 1, by omega⟩
  simp only [Nat.add_sub_cancel]
  rw [swMatrix_eq_swG sc s1 s2 (i' + 1) (j' + 1) him hjn,
    swMatrix_eq_swG sc s1 s2 i' j' (by omega) (by omega),
    swMatrix_eq_swG sc s1 s2 i' (j' + 1) (by omega) hjn,
    swMatrix_eq_swG sc s1 s2 (i' + 1) j' him (by omega)]
  exact swG_rec sc s1 s2 i' j'

lemma no_double_gap_getD (a1 : List Char) :
    ∀ (a2 : List Char) (k : Nat), a1.length = a2.length →
      (∀ p ∈ a1.zip a2, ¬(p.1 = '-' ∧ p.2 = '-')) →
      ¬(a1.getD k ' ' = '-' ∧ a2.getD k ' ' = '-') := by
  induction a1 with
  | nil =>
    intro a2 k _ _
    rintro ⟨pa, -⟩
    simp [List.getD_nil] at pa
  | cons x xs ih =>
    intro a2 k hlen hz
    cases a2 with
    | nil => simp at hlen
    | cons y ys =>
      cases k with
      | zero =>
        simp only [List.getD_cons_zero]
        exact hz (x, y) (by simp)
      | succ k =>
        simp only [List.getD_cons_succ]
        exact ih ys k (by simpa using hlen) fun p hp => hz p (by simp [hp])

/-! ## The claims -/

/-- C1: for every pair of non-empty sequences `s1` (length `m`), `s2`
(length `n`) and every integer scoring model, the global aligner's matrix
satisfies `M[i][0] = i * gap` for `i ∈ [0,m]`, `M[0][j] = j * gap` for
`j ∈ [0,n]`, and the three-way `max` recurrence at every interior cell, and
the returned score equals `M[m][n]`. -/
theorem C1_global_matrix_spec (sc : Scores) (s1 s2 : List Char)
    (h1 : s1 ≠ []) (h2 : s2 ≠ []) :
    needlemanWunsch (some s1) (some s2) sc = Except.ok (nwRun sc s1 s2) ∧
    (∀ i, i ≤ s1.length → nwMatrix sc s1 s2 i 0 = (i : Int) * sc.gap) ∧
    (∀ j, j ≤ s2.length → nwMatrix sc s1 s2 0 j = (j : Int) * sc.gap) ∧
    (∀ i j, 1 ≤ i → i ≤ s1.length → 1 ≤ j → j ≤ s2.length →
      nwMatrix sc s1 s2 i j =
        max (max (nwMatrix sc s1 s2 (i - 1) (j - 1) +
                    matchScoreOf sc (s1.getD (i - 1) ' ') (s2.getD (j - 1) ' '))
                 (nwMatrix sc s1 s2 (i - 1) j + sc.gap))
            (nwMatrix sc s1 s2 i (j - 1) + sc.gap)) ∧
    (nwRun sc s1 s2).score = nwMatrix sc s1 s2 s1.length s2.length := by
  refine ⟨needlemanWunsch_ok sc s1 s2 h1 h2, ?_, ?_,
    nwMatrix_recurrence sc s1 s2, rfl⟩
  · intro i hi
    rw [nwMatrix_eq_nwG sc s1 s2 i 0 hi (Nat.zero_le _), nwG_col0]
  · intro j hj
    rw [nwMatrix_eq_nwG sc s1 s2 0 j (Nat.zero_le _) hj, nwG_row0]

theorem C1_global_matrix_spec_witness :
    nwMatrix DEFAULT_SCORES ['A', 'C'] ['A'] 2 0 = (2 : Int) * DEFAULT_SCORES.gap ∧
    nwMatrix DEFAULT_SCORES ['A', 'C'] ['A'] 2 1 = 0 :=
  ⟨(C1_global_matrix_spec DEFAULT_SCORES ['A', 'C'] ['A'] (by decide)
      (by decide)).2.1 2 (by decide), by decide⟩

/-- C2 (amended): for every pair of non-empty sequences and every integer
scoring model, the local aligner returns a non-negative score and aligned
strings of equal length at most `m + n`.  (The original bound
`min(m, n)` fails; see the counterexample.) -/
theorem C2_local_score_nonneg_length_bound (sc : Scores) (s1 s2 : List Char)
    (h1 : s1 ≠ []) (h2 : s2 ≠ []) :
    smithWaterman (some s1) (some s2) sc = Except.ok (swRun sc s1 s2) ∧
    0 ≤ (swRun sc s1 s2).score ∧
    (swRun sc s1 s2).alignedSeq1.length = (swRun sc s1 s2).alignedSeq2.length ∧
    (swRun sc s1 s2).alignedSeq1.length ≤ s1.length + s2.length := by
  have inv := swFillSt_inv sc s1 s2
  obtain ⟨e1, e2⟩ := swTbA_lengths sc s1 s2 (swMatrix sc s1 s2)
    (s1.length + s2.length) (swFillSt sc s1 s2).maxPos.1
    (swFillSt sc s1 s2).maxPos.2
  refine ⟨smithWaterman_ok sc s1 s2 h1 h2, inv.maxNonneg, e1, ?_⟩
  have hr := inv.maxRow
  have hc := inv.maxCol
  exact le_trans e2 (by omega)

/-- C2, counterexample to the claimed bound `alignment length ≤ min(m,n)`:
with the (spec-allowed) positive gap score `{match: 0, mismatch: 0, gap: 1}`
on `"A"` / `"TT"`, the local traceback takes one `left` and one `up` step,
returning aligned strings of length `2 > min(1, 2)`. -/
theorem C2_length_min_counterexample :
    smithWaterman (some ['A']) (some ['T', 'T'])
        { «match» := 0, mismatch := 0, gap := 1 } =
      Except.ok (swRun { «match» := 0, mismatch := 0, gap := 1 } ['A'] ['T', 'T']) ∧
    (swRun { «match» := 0, mismatch := 0, gap := 1 } ['A'] ['T', 'T']).alignedSeq1.length = 2 ∧
    ¬((swRun { «match» := 0, mismatch := 0, gap := 1 } ['A'] ['T', 'T']).alignedSeq1.length ≤
        min (['A'] : List Char).length (['T', 'T'] : List Char).length) := by
  refine ⟨by decide, by decide, by decide⟩

/-- C4: each aligner fails with the `'Both sequences must be non-empty'`
error exactly when one of its sequence arguments is `null`/`undefined`
(`none`) or empty, and this is the only error either can produce (an error
carries only the message — no partial result). -/
theorem C4_error_iff_missing (s1? s2? : Option (List Char)) (sc : Scores) :
    (needlemanWunsch s1? s2? sc = Except.error "Both sequences must be non-empty" ↔
      (isMissing s1? = true ∨ isMissing s2? = true)) ∧
    (smithWaterman s1? s2? sc = Except.error "Both sequences must be non-empty" ↔
      (isMissing s1? = true ∨ isMissing s2? = true)) ∧
    (∀ e, needlemanWunsch s1? s2? sc = Except.error e →
      e = "Both sequences must be non-empty") ∧
    (∀ e, smithWaterman s1? s2? sc = Except.error e →
      e = "Both sequences must be non-empty") := by
  by_cases hc : (isMissing s1? || isMissing s2?) = true
  · have hor := (Bool.or_eq_true _ _).mp hc
    refine ⟨?_, ?_, ?_, ?_⟩ <;>
      simp [needlemanWunsch, smithWaterman, hc, hor]
  · have hc' : isMissing s1? = false ∧ isMissing s2? = false := by
      simpa using hc
    refine ⟨?_, ?_, ?_, ?_⟩ <;>
      simp [needlemanWunsch, smithWaterman, hc'.1, hc'.2]

theorem C4_error_iff_missing_witness :
    needlemanWunsch none (some ['A']) DEFAULT_SCORES =
      Except.error "Both sequences must be non-empty" ∧
    isMissing (none : Option (List Char)) = true :=
  ⟨(C4_error_iff_missing none (some ['A']) DEFAULT_SCORES).1.mpr
      (Or.inl (by decide)), by decide⟩

/-- C6: for every pair of non-empty sequences of lengths `m`, `n` and every
integer scoring model, the global result satisfies
`alignedSeq1.length = alignedSeq2.length = path.length - 1`, its matrix has
exactly `m + 1` rows of `n + 1` columns each, and the traceback makes at
most `m + n` steps. -/
theorem C6_global_shape_invariant (sc : Scores) (s1 s2 : List Char)
    (h1 : s1 ≠ []) (h2 : s2 ≠ []) :
    needlemanWunsch (some s1) (some s2) sc = Except.ok (nwRun sc s1 s2) ∧
    (nwRun sc s1 s2).alignedSeq1.length = (nwRun sc s1 s2).alignedSeq2.length ∧
    (nwRun sc s1 s2).path.length = (nwRun sc s1 s2).alignedSeq1.length + 1 ∧
    (nwRun sc s1 s2).alignedSeq1.length = (nwRun sc s1 s2).path.length - 1 ∧
    (nwRun sc s1 s2).matrix.length = s1.length + 1 ∧
    (∀ row ∈ (nwRun sc s1 s2).matrix, row.length = s2.length + 1) ∧
    (nwRun sc s1 s2).path.length - 1 ≤ s1.length + s2.length := by
  obtain ⟨e1, e2, e3⟩ := nwTbA_lengths sc s1 s2 (nwMatrix sc s1 s2)
    (s1.length + s2.length) s1.length s2.length
  refine ⟨needlemanWunsch_ok sc s1 s2 h1 h2, ?_, ?_, ?_, ?_, ?_, ?_⟩ <;>
    simp only [nwRun, nwTraceback]
  · exact e1
  · exact e2
  · omega
  · simp [toMatrixList]
  · intro row hrow
    simp only [toMatrixList, List.mem_map] at hrow
    obtain ⟨i, -, rfl⟩ := hrow
    simp
  · omega

theorem C6_global_shape_invariant_witness :
    (nwRun DEFAULT_SCORES ['A', 'C', 'G', 'T'] ['A', 'G', 'T']).matrix.length = 5 ∧
    (nwRun DEFAULT_SCORES ['A', 'C', 'G', 'T'] ['A', 'G', 'T']).path.length - 1 ≤ 7 ∧
    (nwRun DEFAULT_SCORES ['A', 'C', 'G', 'T'] ['A', 'G', 'T']).path.length = 5 :=
  ⟨(C6_global_shape_invariant DEFAULT_SCORES ['A', 'C', 'G', 'T'] ['A', 'G', 'T']
      (by decide) (by decide)).2.2.2.2.1,
   (C6_global_shape_invariant DEFAULT_SCORES ['A', 'C', 'G', 'T'] ['A', 'G', 'T']
      (by decide) (by decide)).2.2.2.2.2.2, by decide⟩

/-- C8: on every pair of non-empty sequences and every integer scoring
model the defensive fallback branches of both tracebacks are dead code:
the global traceback's forced-diagonal final `else` never runs, and the
local traceback's `break` never runs, because every visited interior cell
equals one of its three candidate source values. -/
theorem C8_defensive_branches_unreachable (sc : Scores) (s1 s2 : List Char)
    (h1 : s1 ≠ []) (h2 : s2 ≠ []) :
    (nwTraceback sc s1 s2).fallback = 0 ∧
    (swTraceback sc s1 s2).broke = false := by
  constructor
  · exact nwTbA_fallback sc s1 s2 (nwMatrix sc s1 s2) s1.length s2.length
      (nwMatrix_recurrence sc s1 s2) (s1.length + s2.length)
      s1.length s2.length le_rfl le_rfl
  · exact swTbA_no_break sc s1 s2 (swMatrix sc s1 s2) s1.length s2.length
      (swMatrix_recurrence sc s1 s2) (s1.length + s2.length)
      (swFillSt sc s1 s2).maxPos.1 (swFillSt sc s1 s2).maxPos.2
      (swFillSt_inv sc s1 s2).maxRow (swFillSt_inv sc s1 s2).maxCol

theorem C8_defensive_branches_unreachable_witness :
    ((nwTraceback DEFAULT_SCORES ['A', 'C'] ['G', 'C']).fallback = 0 ∧
      (swTraceback DEFAULT_SCORES ['A', 'C'] ['G', 'C']).broke = false) ∧
    (nwTraceback DEFAULT_SCORES ['A', 'C'] ['G', 'C']).path.length = 3 :=
  ⟨C8_defensive_branches_unreachable DEFAULT_SCORES ['A', 'C'] ['G', 'C']
      (by decide) (by decide), by decide⟩

/-- C9 (amended): for every pair of non-empty sequences that do not
themselves contain the gap marker `'-'`, and every integer scoring model,
neither aligner's aligned string pair carries `'-'` on both sides of any
position.  (The unrestricted claim fails when an input contains `'-'`; see
the counterexample.) -/
theorem C9_no_double_gap (sc : Scores) (s1 s2 : List Char)
    (h1 : s1 ≠ []) (h2 : s2 ≠ []) (hg1 : '-' ∉ s1) (hg2 : '-' ∉ s2) :
    needlemanWunsch (some s1) (some s2) sc = Except.ok (nwRun sc s1 s2) ∧
    smithWaterman (some s1) (some s2) sc = Except.ok (swRun sc s1 s2) ∧
    (∀ k, ¬((nwRun sc s1 s2).alignedSeq1.getD k ' ' = '-' ∧
            (nwRun sc s1 s2).alignedSeq2.getD k ' ' = '-')) ∧
    (∀ k, ¬((swRun sc s1 s2).alignedSeq1.getD k ' ' = '-' ∧
            (swRun sc s1 s2).alignedSeq2.getD k ' ' = '-')) := by
  refine ⟨needlemanWunsch_ok sc s1 s2 h1 h2, smithWaterman_ok sc s1 s2 h1 h2,
    ?_, ?_⟩
  · intro k
    exact no_double_gap_getD _ _ k
      (nwTbA_lengths sc s1 s2 (nwMatrix sc s1 s2)
        (s1.length + s2.length) s1.length s2.length).1
      (nwTbA_no_double_gap sc s1 s2 (nwMatrix sc s1 s2) hg1 hg2
        (s1.length + s2.length) s1.length s2.length)
  · intro k
    exact no_double_gap_getD _ _ k
      (swTbA_lengths sc s1 s2 (swMatrix sc s1 s2)
        (s1.length + s2.length) (swFillSt sc s1 s2).maxPos.1
        (swFillSt sc s1 s2).maxPos.2).1
      (swTbA_no_double_gap sc s1 s2 (swMatrix sc s1 s2) hg1 hg2
        (s1.length + s2.length) (swFillSt sc s1 s2).maxPos.1
        (swFillSt sc s1 s2).maxPos.2)

theorem C9_no_double_gap_witness :
    (∀ k, ¬((nwRun DEFAULT_SCORES ['A'] ['T']).alignedSeq1.getD k ' ' = '-' ∧
            (nwRun DEFAULT_SCORES ['A'] ['T']).alignedSeq2.getD k ' ' = '-')) ∧
    (nwRun DEFAULT_SCORES ['A'] ['T']).alignedSeq1 = ['A'] :=
  ⟨(C9_no_double_gap DEFAULT_SCORES ['A'] ['T'] (by decide) (by decide)
      (by decide) (by decide)).2.2.1, by decide⟩

/-- C9, counterexample to the unrestricted claim: the inputs `"-"`/`"-"`
align as a diagonal match, producing `'-'` in both aligned strings at
position `0`. -/
theorem C9_double_gap_counterexample :
    needlemanWunsch (some ['-']) (some ['-']) DEFAULT_SCORES =
      Except.ok (nwRun DEFAULT_SCORES ['-'] ['-']) ∧
    (nwRun DEFAULT_SCORES ['-'] ['-']).alignedSeq1.getD 0 ' ' = '-' ∧
    (nwRun DEFAULT_SCORES ['-'] ['-']).alignedSeq2.getD 0 ' ' = '-' := by
  refine ⟨by decide, by decide, by decide⟩

/-- C3 (amended): for equal-length strings, `formatAlignment` returns the
three-line block `a \n indicator \n b`, where position `i` of the indicator
is `'|'` when `a[i] = b[i]` (including two gap markers, which the source's
equality test catches first), `' '` when the symbols differ and either is
the gap marker `'-'`, and `':'` when two unequal non-gap symbols meet.
(The unrestricted "space whenever either side is `'-'`" fails on a
double-gap position; see the counterexample.) -/
theorem C3_format_indicator_spec (a b : List Char) (hlen : a.length = b.length) :
    formatAlignment a b =
      Except.ok (a ++ '\n' :: (matchLineOf a b ++ '\n' :: b)) ∧
    (matchLineOf a b).length = a.length ∧
    (∀ i, i < a.length →
      (a.getD i ' ' = b.getD i ' ' → (matchLineOf a b).getD i ' ' = '|') ∧
      (a.getD i ' ' ≠ b.getD i ' ' → (a.getD i ' ' = '-' ∨ b.getD i ' ' = '-') →
        (matchLineOf a b).getD i ' ' = ' ') ∧
      (a.getD i ' ' ≠ b.getD i ' ' → a.getD i ' ' ≠ '-' → b.getD i ' ' ≠ '-' →
        (matchLineOf a b).getD i ' ' = ':')) := by
  refine ⟨by simp [formatAlignment, hlen], matchLineOf_length a b hlen, ?_⟩
  intro i hi
  have hgd := matchLineOf_getD a b i hi (by omega)
  refine ⟨?_, ?_, ?_⟩
  · intro he
    rw [hgd]
    unfold indicator
    rw [if_pos he]
  · intro hne hgap
    rw [hgd]
    unfold indicator
    rw [if_neg hne, if_pos hgap]
  · intro hne hx hy
    rw [hgd]
    unfold indicator
    rw [if_neg hne, if_neg (not_or.mpr ⟨hx, hy⟩)]

theorem C3_format_indicator_spec_witness :
    (matchLineOf ['A', 'B'] ['A', 'C']).getD 0 ' ' = '|' ∧
    (matchLineOf ['A', 'B'] ['A', 'C']).getD 1 ' ' = ':' ∧
    matchLineOf ['A', 'B'] ['A', 'C'] = ['|', ':'] :=
  ⟨((C3_format_indicator_spec ['A', 'B'] ['A', 'C'] (by decide)).2.2 0
      (by decide)).1 (by decide),
   ((C3_format_indicator_spec ['A', 'B'] ['A', 'C'] (by decide)).2.2 1
      (by decide)).2.2 (by decide) (by decide) (by decide),
   by decide⟩

/-- C3, counterexample to the claim as stated: on the equal-length pair
`"-"` / `"-"` both positions hold the gap marker, yet the indicator is
`'|'` (the equality test runs before the gap test), not the claimed
space. -/
theorem C3_double_gap_counterexample :
    formatAlignment ['-'] ['-'] =
      Except.ok ['-', '\n', '|', '\n', '-'] ∧
    (matchLineOf ['-'] ['-']).getD 0 ' ' = '|' ∧
    ('|' : Char) ≠ ' ' := by
  refine ⟨by decide, by decide, by decide⟩

/-- C5: for every pair of non-empty sequences and every integer scoring
model, the local aligner's recorded maximum position (`endPos`) holds the
matrix maximum, no row-major-earlier cell attains it (first occurrence
wins), the returned score is the recorded maximum value, and score `0`
yields empty aligned strings with a single-cell path whose start equals its
end. -/
theorem C5_local_max_first_occurrence (sc : Scores) (s1 s2 : List Char)
    (h1 : s1 ≠ []) (h2 : s2 ≠ []) :
    smithWaterman (some s1) (some s2) sc = Except.ok (swRun sc s1 s2) ∧
    (swRun sc s1 s2).score = (swFillSt sc s1 s2).maxScore ∧
    (swRun sc s1 s2).endPos = (swFillSt sc s1 s2).maxPos ∧
    swMatrix sc s1 s2 (swRun sc s1 s2).endPos.1 (swRun sc s1 s2).endPos.2 =
      (swRun sc s1 s2).score ∧
    (∀ i j, i ≤ s1.length → j ≤ s2.length →
      swMatrix sc s1 s2 i j ≤ (swRun sc s1 s2).score) ∧
    (∀ i j, i ≤ s1.length → j ≤ s2.length →
      rmBefore (i, j) (swRun sc s1 s2).endPos →
      swMatrix sc s1 s2 i j < (swRun sc s1 s2).score) ∧
    ((swRun sc s1 s2).score = 0 →
      (swRun sc s1 s2).alignedSeq1 = [] ∧
      (swRun sc s1 s2).alignedSeq2 = [] ∧
      (swRun sc s1 s2).path = [(swRun sc s1 s2).startPos] ∧
      (swRun sc s1 s2).startPos = (swRun sc s1 s2).endPos) := by
  have inv := swFillSt_inv sc s1 s2
  refine ⟨smithWaterman_ok sc s1 s2 h1 h2, rfl, rfl, ?_, ?_, ?_, ?_⟩
  · show swMatrix sc s1 s2 (swFillSt sc s1 s2).maxPos.1
        (swFillSt sc s1 s2).maxPos.2 = (swFillSt sc s1 s2).maxScore
    rw [swMatrix_eq_swG sc s1 s2 _ _ inv.maxRow inv.maxCol]
    exact inv.maxVal
  · intro i j hi hj
    show swMatrix sc s1 s2 i j ≤ (swFillSt sc s1 s2).maxScore
    rw [swMatrix_eq_swG sc s1 s2 i j hi hj]
    by_cases hb : i = 0 ∨ j = 0
    · rw [swG_boundary sc s1 s2 i j hb]
      exact inv.maxNonneg
    · push_neg at hb
      exact inv.maxUb i j (by omega) (by omega) hj (by omega)
  · intro i j hi hj hbf
    replace hbf : rmBefore (i, j) (swFillSt sc s1 s2).maxPos := hbf
    show swMatrix sc s1 s2 i j < (swFillSt sc s1 s2).maxScore
    rw [swMatrix_eq_swG sc s1 s2 i j hi hj]
    by_cases hb : i = 0 ∨ j = 0
    · rw [swG_boundary sc s1 s2 i j hb]
      rcases lt_or_eq_of_le inv.maxNonneg with hpos | hzero
      · exact hpos
      · exfalso
        have hmp := inv.maxZero hzero.symm
        rw [hmp] at hbf
        simp [rmBefore] at hbf
    · push_neg at hb
      exact inv.maxFirst i j (by omega) (by omega) hj (by omega) hbf
  · intro h0
    replace h0 : (swFillSt sc s1 s2).maxScore = 0 := h0
    have hmp := inv.maxZero h0
    have htb : swTraceback sc s1 s2 = ⟨[(0, 0)], [], [], (0, 0), false⟩ := by
      unfold swTraceback
      rw [hmp]
      exact swTbA_start_zero sc s1 s2 (swMatrix sc s1 s2)
        (s1.length + s2.length)
    refine ⟨?_, ?_, ?_, ?_⟩
    · show (swTraceback sc s1 s2).a1 = []
      rw [htb]
    · show (swTraceback sc s1 s2).a2 = []
      rw [htb]
    · show (swTraceback sc s1 s2).path = [(swTraceback sc s1 s2).stop]
      rw [htb]
    · show (swTraceback sc s1 s2).stop = (swFillSt sc s1 s2).maxPos
      rw [htb, hmp]

theorem C5_local_max_first_occurrence_witness :
    ((swRun DEFAULT_SCORES ['A', 'A'] ['T', 'T']).alignedSeq1 = [] ∧
     (swRun DEFAULT_SCORES ['A', 'A'] ['T', 'T']).alignedSeq2 = [] ∧
     (swRun DEFAULT_SCORES ['A', 'A'] ['T', 'T']).path =
        [(swRun DEFAULT_SCORES ['A', 'A'] ['T', 'T']).startPos] ∧
     (swRun DEFAULT_SCORES ['A', 'A'] ['T', 'T']).startPos =
        (swRun DEFAULT_SCORES ['A', 'A'] ['T', 'T']).endPos) ∧
    (swRun DEFAULT_SCORES ['A', 'A'] ['T', 'T']).score = 0 :=
  ⟨(C5_local_max_first_occurrence DEFAULT_SCORES ['A', 'A'] ['T', 'T']
      (by decide) (by decide)).2.2.2.2.2.2 (by decide), by decide⟩

/-- C7: for every pair of equal-length strings, `calculateAlignmentStats`
classifies each position into exactly one of gap (either side `'-'`,
tested first), match (equal non-gap), or mismatch (unequal non-gap), its
counters are exactly the per-class position counts, and
`matches + mismatches + gaps = alignmentLength` (the common length). -/
theorem C7_stats_partition (a b : List Char) (hlen : a.length = b.length) :
    calculateAlignmentStats a b = Except.ok
      { «matches» := (statCounts a b).1
        mismatches := (statCounts a b).2.1
        gaps := (statCounts a b).2.2
        alignmentLength := a.length
        identity := percentFixed2 (statCounts a b).1 a.length ++ "%"
        similarity :=
          percentFixed2 ((statCounts a b).1 + (statCounts a b).2.1) a.length ++ "%" } ∧
    (statCounts a b).1 = (a.zip b).countP (fun p => decide (isMatchPos p.1 p.2)) ∧
    (statCounts a b).2.1 = (a.zip b).countP (fun p => decide (isMismatchPos p.1 p.2)) ∧
    (statCounts a b).2.2 = (a.zip b).countP (fun p => decide (isGapPos p.1 p.2)) ∧
    (statCounts a b).1 + (statCounts a b).2.1 + (statCounts a b).2.2 = a.length ∧
    (∀ x y : Char,
      (isGapPos x y ∨ isMatchPos x y ∨ isMismatchPos x y) ∧
      ¬(isGapPos x y ∧ isMatchPos x y) ∧
      ¬(isGapPos x y ∧ isMismatchPos x y) ∧
      ¬(isMatchPos x y ∧ isMismatchPos x y)) := by
  have hc := statCounts_eq a b
  have e1 : (statCounts a b).1 =
      (a.zip b).countP (fun p => decide (isMatchPos p.1 p.2)) := by rw [hc]
  have e2 : (statCounts a b).2.1 =
      (a.zip b).countP (fun p => decide (isMismatchPos p.1 p.2)) := by rw [hc]
  have e3 : (statCounts a b).2.2 =
      (a.zip b).countP (fun p => decide (isGapPos p.1 p.2)) := by rw [hc]
  refine ⟨by simp [calculateAlignmentStats, hlen], e1, e2, e3, ?_,
    fun x y => three_classes_partition x y⟩
  rw [e1, e2, e3, countP_three_classes (a.zip b), List.length_zip, hlen,
    min_self]

theorem C7_stats_partition_witness :
    (statCounts ['A', '-', 'C'] ['A', 'T', 'C']).1 +
        (statCounts ['A', '-', 'C'] ['A', 'T', 'C']).2.1 +
        (statCounts ['A', '-', 'C'] ['A', 'T', 'C']).2.2 = 3 ∧
    statCounts ['A', '-', 'C'] ['A', 'T', 'C'] = (2, 0, 1) :=
  ⟨(C7_stats_partition ['A', '-', 'C'] ['A', 'T', 'C'] (by decide)).2.2.2.2.1,
   by decide⟩

/-- C10: `calculateAlignmentStats` on two empty strings — the aligned pair
`smithWaterman` returns when its maximum score is 0 — raises no error; it
returns `alignmentLength = 0` and, dividing by zero as the JS source does,
the string `"NaN%"` for both `identity` and `similarity`. -/
theorem C10_stats_empty_NaN :
    calculateAlignmentStats [] [] =
      Except.ok { «matches» := 0, mismatches := 0, gaps := 0,
                  alignmentLength := 0, identity := "NaN%",
                  similarity := "NaN%" } ∧
    (swRun DEFAULT_SCORES ['A', 'A', 'A', 'A'] ['T', 'T', 'T', 'T']).score = 0 ∧
    (swRun DEFAULT_SCORES ['A', 'A', 'A', 'A'] ['T', 'T', 'T', 'T']).alignedSeq1 = [] ∧
    (swRun DEFAULT_SCORES ['A', 'A', 'A', 'A'] ['T', 'T', 'T', 'T']).alignedSeq2 = [] ∧
    calculateAlignmentStats
        (swRun DEFAULT_SCORES ['A', 'A', 'A', 'A'] ['T', 'T', 'T', 'T']).alignedSeq1
        (swRun DEFAULT_SCORES ['A', 'A', 'A', 'A'] ['T', 'T', 'T', 'T']).alignedSeq2 =
      Except.ok { «matches» := 0, mismatches := 0, gaps := 0,
                  alignmentLength := 0, identity := "NaN%",
                  similarity := "NaN%" } := by
  refine ⟨by decide, by decide, by decide, by decide, by decide⟩

theorem C2_local_score_nonneg_length_bound_witness :
    (0 ≤ (swRun DEFAULT_SCORES ['A'] ['T']).score ∧
     (swRun DEFAULT_SCORES ['A'] ['T']).alignedSeq1.length ≤ 2) ∧
    (swRun DEFAULT_SCORES ['A'] ['T']).score = 0 :=
  ⟨⟨(C2_local_score_nonneg_length_bound DEFAULT_SCORES ['A'] ['T']
      (by decide) (by decide)).2.1,
    (C2_local_score_nonneg_length_bound DEFAULT_SCORES ['A'] ['T']
      (by decide) (by decide)).2.2.2⟩,
   by decide⟩
